import Mathlib

/-!
Verification development for the PR-review investigation pipeline.

The TypeScript sources are shallowly embedded as executable Lean
definitions:

* the planner-output validator (`parsePlannerOutput` and its stages),
* the diff line index (`buildValidLineMap`, `findClosest`,
  `snapToValidLine`) together with the older linear-scan snap,
* the unified-diff parser (`parseDiff`),
* the single-analyst agent loop (`runSingleAnalyst`), where the model
  completion service and the tool executor are oracles supplied as
  function arguments,
* the parallel orchestrator (`runParallelAnalysts`), where each task's
  settled outcome is an oracle argument,
* the repository read tools (`safePath`, `executeTool`), where the file
  system, the directory walker and the JS regex engine are oracles.

JavaScript strings are modelled through their character lists; helper
functions (`strStartsWith`, `splitLines`, `jsTrim`, ...) mirror the
string primitives the sources use, implemented over `List Char` so that
every definition evaluates by kernel reduction.  JS numbers are
modelled as `Int` (the values involved are integral); `Number.MAX`
style overflow and floating point rounding do not arise at the
magnitudes the code manipulates, except where a comment notes the
approximation.  Wall-clock durations (`Date.now()`) are external to the
model and rendered as `0`.
-/

/-! ### JS string primitives over character lists -/

/-- Character-list test that `p` is a prefix of `s` (JS `String.startsWith`). -/
def charsStartWith : List Char → List Char → Bool
  | _, [] => true
  | [], _ :: _ => false
  | s :: ss, p :: ps => s = p && charsStartWith ss ps

/-- The JS test `s.startsWith(p)`. -/
def strStartsWith (s p : String) : Bool :=
  charsStartWith s.data p.data

/-- Split a character list at a separator character; always returns at
least one (possibly empty) group, like JS `String.split`. -/
def splitOnChar (c : Char) : List Char → List (List Char)
  | [] => [[]]
  | x :: xs =>
    let r := splitOnChar c xs
    if x = c then [] :: r
    else
      match r with
      | [] => [[x]]
      | g :: gs => (x :: g) :: gs

/-- The JS split `s.split("\n")`. -/
def splitLines (s : String) : List String :=
  (splitOnChar '\n' s.data).map String.mk

/-- Whitespace as JS `trim` sees it (the code points the sources can meet). -/
def isJsWs (c : Char) : Bool :=
  c = ' ' || c = '\t' || c = '\n' || c = '\r' || c = Char.ofNat 11 || c = Char.ofNat 12

/-- The JS trim `s.trim()`. -/
def jsTrim (s : String) : String :=
  String.mk (((s.data.dropWhile isJsWs).reverse.dropWhile isJsWs).reverse)

/-- The JS length `s.length` (character count; the sources only meet BMP text). -/
def strLen (s : String) : Nat :=
  s.data.length

/-- The JS slice `s.slice(0, n)`. -/
def strTake (s : String) (n : Nat) : String :=
  String.mk (s.data.take n)

/-- The JS lowering `s.toLowerCase()` (ASCII range, which is all the tools compare). -/
def strLower (s : String) : String :=
  String.mk (s.data.map Char.toLower)

/-- Character-list substring test used for the case-insensitive
`includes` fallback of the repo tools. -/
def charsContain (s sub : List Char) : Bool :=
  match s with
  | [] => charsStartWith [] sub
  | _ :: tl => charsStartWith s sub || charsContain tl sub

/-- The JS test `s.includes(sub)`. -/
def strContains (s sub : String) : Bool :=
  charsContain s.data sub.data

/-! ### TaskValidator — `parsePlannerOutput` from the planner module

The JSON deserialization step (`JSON.parse`) is an external decoder; the
validator is embedded from the point where a list of loosely-shaped task
records is in hand.  A `RawTask` mirrors one record of `parsed.tasks`:
string fields hold `""` where the JSON value was absent or falsy, array
fields are `none` when the JSON value was not an array, and
`max_tool_calls` is `none` when absent (`some 0` models an explicit 0,
which the `||` coercion in the source also sends to the default). -/

structure RawTask where
  id : String
  title : String
  scope : String
  concern_type : String
  priority : String
  questions : Option (List String)
  suggested_files : Option (List String)
  suggested_searches : Option (List (String × String))
  max_tool_calls : Option Int
deriving DecidableEq, Repr

/-- A validated `AnalystTask` as produced by the validator (every field
normalized, `max_tool_calls` always present). -/
structure AnalystTask where
  id : String
  title : String
  scope : String
  concern_type : String
  priority : String
  questions : List String
  suggested_files : List String
  suggested_searches : List (String × String)
  max_tool_calls : Int
deriving DecidableEq, Repr

def VALID_CONCERN_TYPES : List String :=
  ["blast_radius", "conventions", "test_coverage", "error_handling",
   "security", "dependencies", "architecture", "data_integrity", "other"]

def VALID_PRIORITIES : List String :=
  ["critical", "high", "medium"]

/-- Per-task validation and normalization: the body of the `for` loop of
`parsePlannerOutput` up to and including the budget clamp.  Returns
`none` where the source drops the task (missing required field, or no
questions after coercion). -/
def normalizeTask (t : RawTask) : Option AnalystTask :=
  if t.id = "" ∨ t.title = "" ∨ t.scope = "" then none
  else
    let ct := if VALID_CONCERN_TYPES.any (· = t.concern_type) then t.concern_type else "other"
    let pr := if VALID_PRIORITIES.any (· = t.priority) then t.priority else "medium"
    let qs := (t.questions.getD []).filter (· ≠ "")
    let sf := t.suggested_files.getD []
    let ss := t.suggested_searches.getD []
    if qs = [] then none
    else
      -- `task.max_tool_calls || 12` sends absent and 0 to 12, then the
      -- result is clamped into [5, 25].
      let eff : Int :=
        match t.max_tool_calls with
        | none => 12
        | some b => if b = 0 then 12 else b
      let budget := min (max eff 5) 25
      some ⟨t.id, t.title, t.scope, ct, pr, qs, sf, ss, budget⟩

/-- The surviving tasks, budgets clamped, in input order. -/
def clampedTasks (tasks : List RawTask) : List AnalystTask :=
  tasks.filterMap normalizeTask

/-- The accumulated `totalBudget` of the validator. -/
def clampedTotal (tasks : List RawTask) : Int :=
  ((clampedTasks tasks).map (·.max_tool_calls)).sum

def MAX_TOTAL_BUDGET : Int := 70

/-- Proportional scale-down applied when the accumulated total exceeds
the ceiling: `Math.max(5, Math.floor(budget * (70 / total)))`.  The
floating-point product is modelled by the exact rational floor
`(budget * 70) / total`; at the integral magnitudes the validator
produces (budget ≤ 25, total ≤ 25·#tasks) the double-precision result
floors identically except on exact-integer boundaries, which the
theorems below avoid. -/
def scaleBudgets (total : Int) (ts : List AnalystTask) : List AnalystTask :=
  if total > MAX_TOTAL_BUDGET then
    ts.map fun t => { t with max_tool_calls := max 5 ((t.max_tool_calls * 70) / total) }
  else ts

/-- The planner-output validator (`parsePlannerOutput`), from the point
where `parsed.tasks` is available.  `.error` models the thrown
exception for an empty task list. -/
def parsePlannerOutput (tasks : List RawTask) : Except String (List AnalystTask) :=
  if tasks = [] then .error "Planner produced no tasks"
  else
    let ts := clampedTasks tasks
    let scaled := scaleBudgets (clampedTotal tasks) ts
    -- `tasks.length = 10` keeps the first ten surviving tasks.
    .ok (scaled.take 10)

/-- Sum of the returned budgets (0 on the error branch). -/
def plannerBudgetSum (r : Except String (List AnalystTask)) : Int :=
  match r with
  | .ok ts => (ts.map (·.max_tool_calls)).sum
  | .error _ => 0

/-! ### LineIndex — `buildValidLineMap`, `findClosest`, `snapToValidLine`
from `pr-review-guide.ts`, and the older linear-scan snap from the
previous revision of the same file. -/

structure GitHubFile where
  filename : String
  status : String
  patch : Option String
  additions : Int
  deletions : Int
  changes : Int
deriving Repr

inductive Side where
  | RIGHT
  | LEFT
deriving DecidableEq, Repr

/-- Numeric value of a non-empty digit run. -/
def digitsVal (ds : List Char) : Nat :=
  ds.foldl (fun a c => a * 10 + (c.toNat - 48)) 0

/-- Read a `\d+` run; `none` when no digit is present. -/
def parseNatChars (cs : List Char) : Option (Nat × List Char) :=
  let ds := cs.takeWhile Char.isDigit
  if ds = [] then none else some (digitsVal ds, cs.drop ds.length)

/-- Consume the optional `(?:,\d+)?` group of the hunk-header regex:
a comma followed by at least one digit, or nothing. -/
def skipCommaCount (cs : List Char) : List Char :=
  match cs with
  | ',' :: rest =>
    let ds := rest.takeWhile Char.isDigit
    if ds = [] then cs else rest.drop ds.length
  | _ => cs

/-- The hunk-header regex `^@@ -(\d+)(?:,\d+)? \+(\d+)(?:,\d+)? @@` of
`buildValidLineMap`, returning the two captured start lines. -/
def parseHunkHeader (line : String) : Option (Int × Int) :=
  match line.data with
  | '@' :: '@' :: ' ' :: '-' :: rest =>
    match parseNatChars rest with
    | none => none
    | some (a, r1) =>
      match skipCommaCount r1 with
      | ' ' :: '+' :: r2 =>
        match parseNatChars r2 with
        | none => none
        | some (c, r3) =>
          match skipCommaCount r3 with
          | ' ' :: '@' :: '@' :: _ => some ((a : Int), (c : Int))
          | _ => none
      | _ => none
  | _ => none

/-- First-occurrence de-duplication, the order `new Set(...)` iterates in. -/
def jsSetDedupGo (seen : List Int) : List Int → List Int
  | [] => []
  | x :: xs => if x ∈ seen then jsSetDedupGo seen xs else x :: jsSetDedupGo (x :: seen) xs

/-- The JS spread `[...new Set(l)]`. -/
def jsSetDedup (l : List Int) : List Int :=
  jsSetDedupGo [] l

/-- The JS pipeline `[...new Set(l)].sort((a, b) => a - b)`. -/
def dedupSort (l : List Int) : List Int :=
  List.insertionSort (· ≤ ·) (jsSetDedup l)

/-- State of the patch walk of `buildValidLineMap`: collected left/right
lines and the two running counters. -/
structure LineWalk where
  left : List Int
  right : List Int
  leftLine : Int
  rightLine : Int

/-- One line of the patch walk of `buildValidLineMap`. -/
def lineWalkStep (st : LineWalk) (line : String) : LineWalk :=
  match parseHunkHeader line with
  | some (a, c) => { st with leftLine := a, rightLine := c }
  | none =>
    if strStartsWith line "-" then
      { st with left := st.left ++ [st.leftLine], leftLine := st.leftLine + 1 }
    else if strStartsWith line "+" then
      { st with right := st.right ++ [st.rightLine], rightLine := st.rightLine + 1 }
    else if strStartsWith line " " ∨ line = "" then
      { left := st.left ++ [st.leftLine], right := st.right ++ [st.rightLine],
        leftLine := st.leftLine + 1, rightLine := st.rightLine + 1 }
    else st

/-- The sorted, de-duplicated left/right pools of one file's patch. -/
def patchPools (patch : String) : List Int × List Int :=
  let w := (splitLines patch).foldl lineWalkStep ⟨[], [], 0, 0⟩
  (dedupSort w.left, dedupSort w.right)

/-- A JS `Map` keyed by filename: `set` replaces in place or appends. -/
def ValidLineMap := List (String × (List Int × List Int))

def mapSet (m : ValidLineMap) (k : String) (v : List Int × List Int) : ValidLineMap :=
  match m with
  | [] => [(k, v)]
  | (k', v') :: rest => if k' = k then (k, v) :: rest else (k', v') :: mapSet rest k v

def mapGet (m : ValidLineMap) (k : String) : Option (List Int × List Int) :=
  match m with
  | [] => none
  | (k', v) :: rest => if k' = k then some v else mapGet rest k

/-- One file of the `buildValidLineMap` loop — files with an absent or
empty (falsy) patch are skipped. -/
def buildStep (m : ValidLineMap) (file : GitHubFile) : ValidLineMap :=
  match file.patch with
  | none => m
  | some p => if p = "" then m else mapSet m file.filename (patchPools p)

/-- The map builder `buildValidLineMap`. -/
def buildValidLineMap (files : List GitHubFile) : ValidLineMap :=
  files.foldl buildStep []

/-- One step of the neighbor loop `for (const idx of [hi, lo])` of
`findClosest`; the state is `none` for `best = null, bestDist = ∞`. -/
def considerIdx (sorted : List Int) (target maxDist : Int)
    (st : Option (Int × Int)) (idx : Int) : Option (Int × Int) :=
  if 0 ≤ idx ∧ idx < (sorted.length : Int) then
    let v := sorted.getD idx.toNat 0
    let dist := |v - target|
    match st with
    | none => if dist ≤ maxDist then some (v, dist) else st
    | some (b, bd) => if dist < bd ∧ dist ≤ maxDist then some (v, dist) else some (b, bd)
  else st

/-- The post-loop neighbor inspection of `findClosest`. -/
def neighborBest (sorted : List Int) (target maxDist hi lo : Int) : Option Int :=
  (considerIdx sorted target maxDist (considerIdx sorted target maxDist none hi) lo).map (·.1)

/-- The binary-search loop of `findClosest`.  The source's `while` loop
terminates because `hi - lo` shrinks; here the measure is an explicit
fuel, always called with fuel ≥ hi + 1 - lo so the zero case is
unreachable (the theorems below carry that invariant). `(lo + hi) >> 1`
is floor division by two on the loop's non-negative indices. -/
def findClosestGo (sorted : List Int) (target maxDist : Int) :
    Nat → Int → Int → Option Int
  | 0, lo, hi => neighborBest sorted target maxDist hi lo
  | fuel + 1, lo, hi =>
    if lo ≤ hi then
      let mid := (lo + hi) / 2
      let v := sorted.getD mid.toNat 0
      if v = target then some target
      else if v < target then findClosestGo sorted target maxDist fuel (mid + 1) hi
      else findClosestGo sorted target maxDist fuel lo (mid - 1)
    else neighborBest sorted target maxDist hi lo

/-- The function `findClosest(sorted, target, maxDist)` from `pr-review-guide.ts`. -/
def findClosest (sorted : List Int) (target maxDist : Int) : Option Int :=
  if sorted.length = 0 then none
  else findClosestGo sorted target maxDist sorted.length 0 ((sorted.length : Int) - 1)

/-- The current revision's `snapToValidLine`: look the file up, pick the
side's pool, snap with tolerance 20. -/
def snapToValidLine (filename : String) (requestedLine : Int) (side : Side)
    (validLines : ValidLineMap) : Option Int :=
  match mapGet validLines filename with
  | none => none
  | some pools =>
    findClosest (if side = Side.RIGHT then pools.2 else pools.1) requestedLine 20

/-- One step of the linear scan of the previous revision's
`snapToValidLine` (`dist < bestDist && dist <= 20`, starting from
`best = null, bestDist = Infinity`). -/
def scanStep (requestedLine : Int) (st : Option (Int × Int)) (l : Int) : Option (Int × Int) :=
  let dist := |l - requestedLine|
  match st with
  | none => if dist ≤ 20 then some (l, dist) else st
  | some (b, bd) => if dist < bd ∧ dist ≤ 20 then some (l, dist) else some (b, bd)

/-- The improvement condition of one scan step (`dist < bestDist &&
dist <= 20`, with `bestDist = ∞` for the `none` state), shared by
`scanStep` and the neighbor loop. -/
def scanImproves (st : Option (Int × Int)) (d : Int) : Prop :=
  match st with
  | none => d ≤ 20
  | some (_, bd) => d < bd ∧ d ≤ 20

/-- The previous revision's snap over one pool: exact membership first,
then a full scan of the sorted pool with tolerance 20. -/
def oldPoolSnap (pool : List Int) (requestedLine : Int) : Option Int :=
  if requestedLine ∈ pool then some requestedLine
  else
    ((List.insertionSort (· ≤ ·) pool).foldl (scanStep requestedLine) none).map (·.1)

/-! ### DiffModel — `parseDiff` from `index.ts`

`rawDiff.split(/^diff --git /m)` splits the raw text at line-start
occurrences of the marker; the newline before a marker stays with the
preceding chunk, so every chunk but the last carries a trailing empty
line, and the chunk before the first marker survives only when
non-empty.  `diffSections` reproduces those chunks as line lists. -/

def DIFF_MARKER : String := "diff --git "

/-- Strip the consumed separator `diff --git ` from a marker line. -/
def stripMarker (l : String) : String :=
  String.mk (l.data.drop 11)

/-- Group the lines of the raw diff into the chunks `split` produces.
`cur` accumulates the current chunk in reverse. -/
def diffSectionsGo (cur : List String) : List String → List (List String)
  | [] => [cur.reverse]
  | l :: ls =>
    if strStartsWith l DIFF_MARKER then
      ((("" :: cur).reverse)) :: diffSectionsGo [stripMarker l] ls
    else diffSectionsGo (l :: cur) ls

/-- The sections of `parseDiff`: the line lists of the non-empty chunks
of `rawDiff.split(/^diff --git /m)` (the `filter(Boolean)`). -/
def diffSections (raw : String) : List (List String) :=
  (diffSectionsGo [] (splitLines raw)).filter (fun c => c ≠ [""] ∧ c ≠ [])

/-- Candidate remainders of the greedy optional quote `"?`, in engine
order (with the quote consumed first when one is present). -/
def optQuote (cs : List Char) : List (List Char) :=
  match cs with
  | '"' :: rest => [rest, cs]
  | _ => [cs]

/-- Candidate remainders of greedy `\s+` with backtracking: longest run
first, down to a single whitespace character; no candidate when the
next character is not whitespace. -/
def wsPlus (cs : List Char) : List (List Char) :=
  let k := (cs.takeWhile isJsWs).length
  (List.range k).map (fun i => cs.drop (k - i))

/-- Tail of the quoted-path regex after `b/`: `(.+?)"?$` — a lazy
non-empty group, an optional quote, end of line. -/
def quotedTail (r : List Char) : Option String :=
  if r = [] then none
  else if r.getLast? = some '"' ∧ 2 ≤ r.length then some (String.mk r.dropLast)
  else some (String.mk r)

/-- The quoted-path header regex of `parseDiff`,
`^"?a\/(.+?)"?\s+"?b\/(.+?)"?$`, as a specialized backtracking matcher
(lazy groups grow outward-in, greedy options try the longer branch
first, exactly the engine's exploration order). -/
def quotedMatch (header : String) : Option (String × String) :=
  (optQuote header.data).findSome? fun c1 =>
    match c1 with
    | 'a' :: '/' :: rest =>
      (List.range rest.length).findSome? fun i =>
        let g1 := rest.take (i + 1)
        let r1 := rest.drop (i + 1)
        (optQuote r1).findSome? fun r2 =>
          (wsPlus r2).findSome? fun r3 =>
            (optQuote r3).findSome? fun r4 =>
              match r4 with
              | 'b' :: '/' :: r5 =>
                (quotedTail r5).map fun g2 => (String.mk g1, g2)
              | _ => none
    | _ => none

/-- Index of the first occurrence of ` b/` in the header, JS
`indexOf(" b/")`. -/
def bDelimIdx (cs : List Char) : Option Nat :=
  match cs with
  | ' ' :: 'b' :: '/' :: _ => some 0
  | [] => none
  | _ :: tl => (bDelimIdx tl).map (· + 1)

/-- Path-pair recovery of `parseDiff`: the quoted regex first, then the
unquoted `" b/"` split; `none` when either recovered path is falsy. -/
def parseHeaderPaths (headerLine : String) : Option (String × String) :=
  let pair :=
    match quotedMatch headerLine with
    | some p => some p
    | none =>
      match bDelimIdx headerLine.data with
      | some i =>
        some (String.mk ((headerLine.data.take i).drop 2),
              String.mk (headerLine.data.drop (i + 3)))
      | none => none
  match pair with
  | some (o, n) => if o = "" ∨ n = "" then none else some (o, n)
  | none => none

structure FileDiffEntry where
  filename : String
  status : String
  old_filename : Option String
  additions : Nat
  deletions : Nat
  hunks : List String
  patch : String
deriving DecidableEq, Repr

/-- The source's `+` counting condition:
`line.startsWith("+") && !line.startsWith("+++")`. -/
def plusContent (l : String) : Bool :=
  strStartsWith l "+" && ! strStartsWith l "+++"

/-- The source's `-` counting condition. -/
def minusContent (l : String) : Bool :=
  strStartsWith l "-" && ! strStartsWith l "---"

/-- State of the hunk walk of one `parseDiff` section. -/
structure SectionWalk where
  hunks : List String
  additions : Nat
  deletions : Nat
  patchLines : List String
  inPatch : Bool

/-- One line of the hunk walk of `parseDiff`. -/
def sectionStep (st : SectionWalk) (line : String) : SectionWalk :=
  if strStartsWith line "@@" then
    { st with hunks := st.hunks ++ [line], patchLines := st.patchLines ++ [line],
              inPatch := true }
  else if st.inPatch then
    if strStartsWith line "\\ No newline" then st
    else
      { st with
        patchLines := st.patchLines ++ [line]
        additions := st.additions + (if plusContent line then 1 else 0)
        deletions := st.deletions + (if minusContent line then 1 else 0) }
  else st

/-- Parse one section of the diff; `none` models the `continue`s. -/
def parseSection (lines : List String) : Option FileDiffEntry :=
  match lines with
  | [] => none
  | headerLine :: _ =>
    match parseHeaderPaths headerLine with
    | none => none
    | some (oldPath, newPath) =>
      let hasNewFile := lines.any (fun l => strStartsWith l "new file mode")
      let hasDeleted := lines.any (fun l => strStartsWith l "deleted file mode")
      let isRenamed := oldPath ≠ newPath
      let status :=
        if hasNewFile then "added"
        else if hasDeleted then "deleted"
        else if isRenamed then "renamed"
        else "modified"
      let w := lines.foldl sectionStep ⟨[], 0, 0, [], false⟩
      some
        { filename := newPath
          status := status
          old_filename := if isRenamed then some oldPath else none
          additions := w.additions
          deletions := w.deletions
          hunks := w.hunks
          patch := String.intercalate "\n" w.patchLines }

/-- The parser `parseDiff` from `index.ts`. -/
def parseDiff (raw : String) : List FileDiffEntry :=
  (diffSections raw).filterMap parseSection

/-- The lines of a section at or after its first hunk header. -/
def sectionPatchLines (lines : List String) : List String :=
  lines.dropWhile (fun l => ¬ strStartsWith l "@@")

/-- Number of `+` lines of one section that `parseDiff` counts: inside
the hunks and not beginning with `+++`. -/
def sectionAdds (lines : List String) : Nat :=
  ((sectionPatchLines lines).filter plusContent).length

/-- Number of `-` lines of one section that `parseDiff` counts. -/
def sectionDels (lines : List String) : Nat :=
  ((sectionPatchLines lines).filter minusContent).length

/-- Declarative count over the raw text: `+` lines inside hunks, not
beginning `+++`, of the sections whose header parses. -/
def rawAdditions (raw : String) : Nat :=
  (((diffSections raw).filter (fun ls => (parseSection ls).isSome)).map sectionAdds).sum

/-- Declarative count over the raw text for deletions. -/
def rawDeletions (raw : String) : Nat :=
  (((diffSections raw).filter (fun ls => (parseSection ls).isSome)).map sectionDels).sum

/-- The claim's count: every `+` content line (a line inside the hunks
beginning with `+`), with only the `+++` patch-header lines — which sit
before the first hunk header — excluded. -/
def rawPlusContentCount (raw : String) : Nat :=
  (((diffSections raw).filter (fun ls => (parseSection ls).isSome)).map
    (fun ls => ((sectionPatchLines ls).filter (fun l => strStartsWith l "+")).length)).sum

/-! ### AgentRuntime — `runSingleAnalyst` from `analyst-agent.ts`

The completion service is an oracle `model : Nat → ModelResponse`,
consumed one response per `client.messages.create` call (the n-th call
of a run reads `model n`); the combined repo/diff tool executor is an
oracle `toolExec : String → String → String` from tool name and
serialized input to result text.  The conversation array only feeds the
oracles, so it is not tracked.  `durationMs` is wall-clock and rendered
as 0. -/

inductive ContentBlock where
  | text (s : String)
  | toolUse (id name input : String)
deriving DecidableEq, Repr

structure ModelResponse where
  stop_reason : String
  content : List ContentBlock
deriving DecidableEq, Repr

/-- The task shape `runSingleAnalyst` consumes (`max_tool_calls`
optional, as in the `AnalystTask` interface). -/
structure AgentTask where
  id : String
  title : String
  concern_type : String
  priority : String
  max_tool_calls : Option Int
deriving DecidableEq, Repr

structure SingleAnalystResult where
  taskId : String
  taskTitle : String
  concernType : String
  priority : String
  summary : String
  iterations : Nat
  toolCalls : Nat
  earlyStop : Bool
  stopReason : String
  durationMs : Nat
deriving DecidableEq, Repr

def DEFAULT_MAX_ITERATIONS : Int := 20
def MAX_TOOL_RESULT_CHARS : Nat := 16000
def MAX_TOTAL_TOOL_RESULT_CHARS : Nat := 70000

/-- Computes `task.max_tool_calls || DEFAULT_MAX_ITERATIONS` (0 is falsy). -/
def effectiveMaxIterations (task : AgentTask) : Int :=
  match task.max_tool_calls with
  | none => DEFAULT_MAX_ITERATIONS
  | some b => if b = 0 then DEFAULT_MAX_ITERATIONS else b

/-- The helper `extractText`: concatenation of the text blocks of a response. -/
def extractText (r : ModelResponse) : String :=
  String.mk ((r.content.filterMap fun b =>
    match b with
    | .text s => some s.data
    | .toolUse _ _ _ => none).flatten)

def NO_SUMMARY_PLACEHOLDER : String :=
  "(Response contained only tool calls, no summary provided)"

/-- Forced-summary text selection (`textOutput.trim() ? textOutput :
placeholder`), shared by the `max_tokens` handler and the budget stop. -/
def summaryOrPlaceholder (textOutput : String) : String :=
  if jsTrim textOutput ≠ "" then textOutput else NO_SUMMARY_PLACEHOLDER

/-- Truncate an oversized tool result and annotate its true length. -/
def truncateToolResult (result : String) : String :=
  if MAX_TOOL_RESULT_CHARS < strLen result then
    strTake result MAX_TOOL_RESULT_CHARS ++
      "\n...[TRUNCATED — " ++ toString (strLen result) ++ " chars. Use more specific queries.]"
  else result

def isToolUseBlock : ContentBlock → Bool
  | .toolUse _ _ _ => true
  | .text _ => false

/-- The tool-use blocks of a response, in order. -/
def toolUsesOf (r : ModelResponse) : List (String × String) :=
  r.content.filterMap fun b =>
    match b with
    | .toolUse _ name input => some (name, input)
    | .text _ => none

def buildResult (task : AgentTask) (summary : String) (iterations toolCalls : Nat)
    (earlyStop : Bool) (stopReason : String) : SingleAnalystResult :=
  { taskId := task.id, taskTitle := task.title, concernType := task.concern_type,
    priority := task.priority, summary := summary, iterations := iterations,
    toolCalls := toolCalls, earlyStop := earlyStop, stopReason := stopReason,
    durationMs := 0 }

/-- The ReACT loop of `runSingleAnalyst`.  `c` counts completion calls
already made, `iterations`/`toolCallCount`/`totalToolResultChars` are
the loop counters.  The fuel equals `maxIterations - iterations`, so
`while (iterations < maxIterations)` exits exactly at fuel 0. -/
def runAnalystGo (task : AgentTask) (model : Nat → ModelResponse)
    (toolExec : String → String → String) :
    Nat → Nat → Nat → Nat → Nat → SingleAnalystResult
  | 0, _, iterations, toolCallCount, _ =>
    buildResult task "Analyst completed without producing a summary."
      iterations toolCallCount true "unexpected_exit"
  | fuel + 1, c, iterations, toolCallCount, totalToolResultChars =>
    let response := model c
    let iterations' := iterations + 1
    if response.stop_reason = "max_tokens" then
      -- forceAnalystSummary: one more call with tool_choice "none".
      buildResult task (summaryOrPlaceholder (extractText (model (c + 1))))
        iterations' toolCallCount true "max_tokens"
    else if ¬ response.content.any isToolUseBlock then
      buildResult task (extractText response) iterations' toolCallCount false "complete"
    else
      let uses := toolUsesOf response
      let toolCallCount' := toolCallCount + uses.length
      let totalChars' :=
        totalToolResultChars +
          (uses.map fun u => strLen (truncateToolResult (toolExec u.1 u.2))).sum
      let overBudget := MAX_TOTAL_TOOL_RESULT_CHARS < totalChars'
      let overIterations := effectiveMaxIterations task ≤ (iterations' : Int)
      if overBudget ∨ overIterations then
        let reason := if overBudget then "context_budget" else "max_iterations"
        buildResult task (summaryOrPlaceholder (extractText (model (c + 1))))
          iterations' toolCallCount' true reason
      else
        runAnalystGo task model toolExec fuel (c + 1) iterations' toolCallCount' totalChars'

/-- The agent loop `runSingleAnalyst` over the two oracles. -/
def runSingleAnalyst (task : AgentTask) (model : Nat → ModelResponse)
    (toolExec : String → String → String) : SingleAnalystResult :=
  runAnalystGo task model toolExec (effectiveMaxIterations task).toNat 0 0 0 0

/-! ### Orchestrator — `runParallelAnalysts` from `analyst-agent.ts`

Each task's settled outcome is an oracle `outcome : AgentTask → Option
SingleAnalystResult` (`none` = the promise rejected or timed out); the
fixed-size batching only controls pacing, so the settled results line
up with the sorted active tasks exactly as the sequential model
computes them. -/

def MAX_PARALLEL_ANALYSTS : Nat := 5

structure ParallelAnalystResult where
  analysts : List SingleAnalystResult
  mergedContext : String
  totalToolCalls : Nat
  totalDurationMs : Nat
  failedTasks : List String
deriving DecidableEq, Repr

/-- Computes `priorityOrder[p] ?? 3`. -/
def prioNum (p : String) : Nat :=
  if p = "critical" then 0 else if p = "high" then 1 else if p = "medium" then 2 else 3

/-- One merged section block per analyst result. -/
def mergeSection (result : SingleAnalystResult) : List String :=
  let confidence :=
    if result.earlyStop ∧ result.stopReason ≠ "complete" then
      " ⚠️ (" ++ result.stopReason ++ " — findings may be incomplete)"
    else ""
  ["---",
   "## [" ++ (result.priority.toUpper) ++ "] " ++ result.taskTitle ++ confidence,
   "_Analyst " ++ result.taskId ++ ": " ++ toString result.toolCalls ++ " tool calls, " ++
     toString result.durationMs ++ "ms_\n",
   result.summary,
   ""]

/-- The merge step `mergeAnalystSummaries`. -/
def mergeAnalystSummaries (results : List SingleAnalystResult)
    (failedTasks : List String) : String :=
  let header :=
    ["# Codebase Analysis Report",
     "_Generated by " ++ toString results.length ++ " parallel analysts" ++
       (if failedTasks.length ≠ 0 then
          " (" ++ toString failedTasks.length ++ " failed: " ++
            String.intercalate ", " failedTasks ++ ")"
        else "") ++ "_\n"]
  let sorted := results.insertionSort (fun a b => prioNum a.priority ≤ prioNum b.priority)
  let failSection :=
    if failedTasks.length ≠ 0 then
      ["---", "## ⚠️ Failed Investigations",
       "The following tasks failed: " ++ String.intercalate ", " failedTasks ++ ". " ++
         "The reviewer should manually check those areas."]
    else []
  String.intercalate "\n" (header ++ (sorted.map mergeSection).flatten ++ failSection)

/-- The orchestrator `runParallelAnalysts`: cap at `MAX_PARALLEL_ANALYSTS`, stable-sort by
priority (JS `Array.prototype.sort` is stable), settle every task, then
merge.  The function is total — the source has no `throw`. -/
def runParallelAnalysts (tasks : List AgentTask)
    (outcome : AgentTask → Option SingleAnalystResult) : ParallelAnalystResult :=
  let activeTasks :=
    (tasks.take MAX_PARALLEL_ANALYSTS).insertionSort
      (fun a b => prioNum a.priority ≤ prioNum b.priority)
  let analysts := activeTasks.filterMap outcome
  let failedTasks := (activeTasks.filter (fun t => (outcome t).isNone)).map (·.id)
  { analysts := analysts
    mergedContext := mergeAnalystSummaries analysts failedTasks
    totalToolCalls := (analysts.map (·.toolCalls)).sum
    totalDurationMs := 0
    failedTasks := failedTasks }

/-! ### Repository tools — `safePath` and `executeTool` from `repo-tools.ts`

POSIX paths are modelled as segment lists.  `path.join(root, fp)`
concatenates and normalizes (`.` and empty segments vanish, `..` pops,
clamped at the absolute root); `path.relative(root, resolved)` strips
the common prefix and emits one `..` per remaining segment of `root`.
The file system (`readFile`), the recursive directory walk and the JS
regex engine are oracles in an `FsModel`; file reads go through
`readLinesM`, which fails — like the thrown `ENOENT` — when the oracle
has no such file. -/

def splitPath (s : String) : List String :=
  (splitOnChar '/' s.data).map String.mk

/-- Normalization of an absolute path's segment list. -/
def normalizeAbs (segs : List String) : List String :=
  segs.foldl
    (fun acc seg =>
      if seg = "" ∨ seg = "." then acc
      else if seg = ".." then acc.dropLast
      else acc ++ [seg])
    []

/-- Node `path.join(repoRoot, filepath)` for an already-normalized absolute
`root`. -/
def joinPath (root : List String) (filepath : String) : List String :=
  normalizeAbs (root ++ splitPath filepath)

/-- Drop the longest common prefix of two segment lists. -/
def dropCommon : List String → List String → List String × List String
  | a :: as_, b :: bs => if a = b then dropCommon as_ bs else (a :: as_, b :: bs)
  | as_, bs => (as_, bs)

/-- Node `path.relative(fromAbs, toAbs)` as a segment list. -/
def relativeSegs (fromAbs toAbs : List String) : List String :=
  (List.replicate (dropCommon fromAbs toAbs).1.length "..") ++ (dropCommon fromAbs toAbs).2

/-- The guard of `safePath`: `rel.startsWith("..") || rel.startsWith("/")`
on the joined relative path. -/
def relIsTraversal (rel : List String) : Bool :=
  match rel with
  | [] => false
  | s :: _ => strStartsWith s ".." || strStartsWith s "/"

/-- The guard `safePath(repoRoot, filepath)`: resolve, re-relativize, reject
traversal; `.error` models the thrown `Error`. -/
def safePath (root : List String) (filepath : String) : Except String (List String) :=
  let resolved := joinPath root filepath
  let rel := relativeSegs root resolved
  if relIsTraversal rel then
    .error ("Path traversal not allowed: \"" ++ filepath ++ "\"")
  else .ok resolved

/-- The filepath resolves outside the repository root: the claim-side
reading of path traversal. -/
def resolvesOutside (root : List String) (filepath : String) : Prop :=
  ¬ root <+: joinPath root filepath

instance (root : List String) (filepath : String) :
    Decidable (resolvesOutside root filepath) := by
  unfold resolvesOutside
  infer_instance

/-- External dependencies of the repo tools. -/
structure FsModel where
  read : List String → Option String
  walk : List String → List String
  regexValid : String → Bool
  regexTest : String → String → Bool

/-- The reader `readLines` (the per-run cache is behaviorally transparent: reads
are pure within a run). -/
def readLinesM (fs : FsModel) (absPath : List String) : Except String (List String) :=
  match fs.read absPath with
  | none => .error "ENOENT: no such file or directory"
  | some content => .ok (splitLines content)

structure SearchMatch where
  line_number : Nat
  content : String
  context_before : Option String
  context_after : Option String
deriving DecidableEq, Repr

/-- Structured tool results (the source serializes these to JSON). -/
inductive ToolResult where
  | search (filepath pattern : String) (total_matches : Nat) (matches_ : List SearchMatch)
      (truncated : Bool) (message : Option String)
  | getLines (filepath : String) (start_line end_line : Int) (total_lines : Nat)
      (lines : List (Int × Option String))
  | fileInfo (filepath : String) (exists_ : Bool) (line_count byte_size : Nat)
  | listFiles (directory : String) (pattern : Option String) (total_files matched_files : Nat)
      (files : List String) (truncated : Bool)
  | error (msg : String)
deriving DecidableEq, Repr

def MAX_SEARCH_RESULTS_FULL : Nat := 30
def MAX_SEARCH_RESULTS_PREVIEW : Nat := 5
def MAX_GET_LINES : Int := 100
def MAX_LIST_FILES : Nat := 100

/-- Whether a line matches the search pattern: `re:` patterns go to the
regex oracle, anything else is the escaped case-insensitive substring
regex. -/
def lineMatches (fs : FsModel) (pattern line : String) : Bool :=
  if strStartsWith pattern "re:" then
    fs.regexTest (String.mk (pattern.data.drop 3)) line
  else
    strContains (strLower line) (strLower pattern)

/-- Build the match records for the given (0-based) indices. -/
def buildMatches (lines : List String) (idxs : List Nat) : List SearchMatch :=
  idxs.map fun i =>
    { line_number := i + 1
      content := lines.getD i ""
      context_before := if 0 < i then some (lines.getD (i - 1) "") else none
      context_after := if i + 1 < lines.length then some (lines.getD (i + 1) "") else none }

/-- The tool body `searchInFile`. -/
def searchInFile (fs : FsModel) (root : List String) (filepath pattern : String) :
    Except String ToolResult := do
  if jsTrim pattern = "" then
    return .search filepath pattern 0 [] false
      (some "Empty pattern. Provide a specific search term (function name, variable, keyword).")
  let absPath ← safePath root filepath
  let lines ← readLinesM fs absPath
  if strStartsWith pattern "re:" ∧ ¬ fs.regexValid (String.mk (pattern.data.drop 3)) then
    return .search filepath pattern 0 [] false
      (some ("Invalid regex: \"" ++ String.mk (pattern.data.drop 3) ++ "\""))
  let matchingIndices := (List.range lines.length).filter
    (fun i => lineMatches fs pattern (lines.getD i ""))
  let totalMatches := matchingIndices.length
  if MAX_SEARCH_RESULTS_FULL < totalMatches then
    return .search filepath pattern totalMatches
      (buildMatches lines (matchingIndices.take MAX_SEARCH_RESULTS_PREVIEW)) true
      (some ("Pattern \"" ++ pattern ++ "\" matched " ++ toString totalMatches ++
        " lines — too many to return. Showing first " ++
        toString MAX_SEARCH_RESULTS_PREVIEW ++ " matches. " ++
        "Refine your search with a more specific pattern, or use get_lines to read a specific region."))
  return .search filepath pattern totalMatches (buildMatches lines matchingIndices) false none

/-- The tool body `getLines` (clamp, swap, cap at 100, collect). -/
def getLines (fs : FsModel) (root : List String) (filepath : String)
    (startLine endLine : Int) : Except String ToolResult := do
  let absPath ← safePath root filepath
  let allLines ← readLinesM fs absPath
  let totalLines := allLines.length
  let start0 := max 1 startLine
  let end0 := min (totalLines : Int) endLine
  let start1 := if end0 < start0 then end0 else start0
  let end1 := if end0 < start0 then start0 else end0
  let end2 := if MAX_GET_LINES < end1 - start1 + 1 then start1 + MAX_GET_LINES - 1 else end1
  let idxs := (List.range (end2 + 1 - start1).toNat).map (fun k => start1 + (k : Int))
  let lines := idxs.map (fun i => (i, allLines.get? (i - 1).toNat))
  return .getLines filepath start1 end2 totalLines lines

/-- The tool body `getFileInfo` (`access`/`stat` report through the same read oracle;
`byte_size` is the content length — the sources only meet ASCII). -/
def getFileInfo (fs : FsModel) (root : List String) (filepath : String) :
    Except String ToolResult := do
  let absPath ← safePath root filepath
  match fs.read absPath with
  | none => return .fileInfo filepath false 0 0
  | some content =>
    return .fileInfo filepath true (splitLines content).length (strLen content)

/-- The matcher `matchesPattern` of `listFiles`. -/
def matchesPattern (filename pattern : String) : Bool :=
  let lower := strLower filename
  let p := strLower pattern
  if strStartsWith p "*" ∧ (p.data.getLast? = some '*') then
    strContains lower (String.mk (p.data.drop 1).dropLast)
  else if strStartsWith p "*." then
    charsStartWith lower.data.reverse (p.data.drop 1).reverse
  else if p.data.getLast? = some '*' then
    strStartsWith lower (String.mk p.data.dropLast)
  else if strStartsWith p "*" then
    charsStartWith lower.data.reverse (p.data.drop 1).reverse
  else strContains lower p

/-- The JS basename `f.split("/").pop() || f`. -/
def basenameOf (f : String) : String :=
  match (splitPath f).getLast? with
  | none => f
  | some b => if b = "" then f else b

/-- The tool body `listFiles` (the recursive walk is the `walk` oracle). -/
def listFiles (fs : FsModel) (root : List String) (directory : String)
    (pattern : Option String) : Except String ToolResult := do
  let absDir ← safePath root directory
  let allFiles := fs.walk absDir
  let matched :=
    match pattern with
    | some p => if p = "" then allFiles else allFiles.filter (fun f => matchesPattern (basenameOf f) p)
    | none => allFiles
  return .listFiles directory pattern allFiles.length matched.length
    (matched.take MAX_LIST_FILES) (MAX_LIST_FILES < matched.length)

/-- The arguments of one tool invocation (absent optional members are
`none`). -/
structure ToolInput where
  filepath : String
  pattern : Option String
  start_line : Int
  end_line : Int
  directory : String
deriving Repr

/-- The dispatcher `executeTool`, catching every thrown error into an error
result. -/
def executeTool (fs : FsModel) (root : List String) (toolName : String)
    (input : ToolInput) : ToolResult :=
  let r : Except String ToolResult :=
    match toolName with
    | "search_in_file" =>
      match input.pattern with
      | none => .error "Cannot read properties of undefined (reading 'trim')"
      | some p => searchInFile fs root input.filepath p
    | "get_lines" => getLines fs root input.filepath input.start_line input.end_line
    | "get_file_info" => getFileInfo fs root input.filepath
    | "list_files" => listFiles fs root input.directory input.pattern
    | _ => .ok (.error ("Unknown tool: " ++ toolName))
  match r with
  | .ok result => result
  | .error msg => .error ("Tool \"" ++ toolName ++ "\" failed: " ++ msg)

/-- Whether a tool result is the error shape. -/
def ToolResult.isError : ToolResult → Bool
  | .error _ => true
  | _ => false

/-! ### Concrete inputs used by the counterexamples and witnesses -/

/-- A fully well-formed planner task record. -/
def mkRawTask (i : String) (p : String) (b : Int) : RawTask :=
  ⟨i, "t", "s", "security", p, some ["q"], some [], some [], some b⟩

/-- Ten surviving tasks whose clamped budgets sum to 90 (> 70): eight at
the floor 5 and two at the cap 25. -/
def exTasksC1 : List RawTask :=
  [mkRawTask "analyst_1" "high" 5, mkRawTask "analyst_2" "high" 5,
   mkRawTask "analyst_3" "high" 5, mkRawTask "analyst_4" "high" 5,
   mkRawTask "analyst_5" "high" 5, mkRawTask "analyst_6" "high" 5,
   mkRawTask "analyst_7" "high" 5, mkRawTask "analyst_8" "high" 5,
   mkRawTask "analyst_9" "high" 25, mkRawTask "analyst_10" "high" 25]

/-- Eleven surviving tasks: ten medium-priority ones first, a critical
one last (budgets small enough that no scaling applies). -/
def exTasksC6 : List RawTask :=
  [mkRawTask "m1" "medium" 5, mkRawTask "m2" "medium" 5,
   mkRawTask "m3" "medium" 5, mkRawTask "m4" "medium" 5,
   mkRawTask "m5" "medium" 5, mkRawTask "m6" "medium" 5,
   mkRawTask "m7" "medium" 5, mkRawTask "m8" "medium" 5,
   mkRawTask "m9" "medium" 5, mkRawTask "m10" "medium" 5,
   mkRawTask "crit" "critical" 5]

/-- The critical task the validator drops in `exTasksC6`. -/
def exCritTask : RawTask := mkRawTask "crit" "critical" 5

/-- The validated tasks, `[]` on the error branch. -/
def plannerTasks (r : Except String (List AnalystTask)) : List AnalystTask :=
  (r.toOption).getD []

/-- The diff of the snap scenario: one file whose valid right-side lines
are 10–14 (hunk `@@ -10,3 +10,5 @@`). -/
def exPatchC5 : String := "@@ -10,3 +10,5 @@\n a\n+b\n+c\n d\n e"

def exFileC5 : GitHubFile := ⟨"src/a.ts", "modified", some exPatchC5, 3, 1, 4⟩

def exMapC5 : ValidLineMap := buildValidLineMap [exFileC5]

/-- A well-formed diff whose single hunk adds the content line `++y`
(raw line `+++y`). -/
def exDiffC7 : String :=
  "diff --git a/x b/x\n--- a/x\n+++ b/x\n@@ -1,1 +1,2 @@\n x\n+++y\n"

/-- A task with an explicit tool-call budget of 1. -/
def exAgentTask : AgentTask := ⟨"analyst_1", "T", "security", "high", some 1⟩

/-- A model whose every round emits two tool invocations. -/
def exModelC2 : Nat → ModelResponse := fun _ =>
  ⟨"tool_use", [ContentBlock.toolUse "1" "get_file_info" "x",
                ContentBlock.toolUse "2" "get_file_info" "y"]⟩

/-- A model whose final (and only) round carries no content at all. -/
def exModelC3 : Nat → ModelResponse := fun _ => ⟨"end_turn", []⟩

def exToolExec : String → String → String := fun _ _ => "result"

/-- Six tasks submitted to the orchestrator. -/
def exTasks6 : List AgentTask :=
  [⟨"t1", "T1", "other", "medium", some 5⟩, ⟨"t2", "T2", "other", "medium", some 5⟩,
   ⟨"t3", "T3", "other", "medium", some 5⟩, ⟨"t4", "T4", "other", "medium", some 5⟩,
   ⟨"t5", "T5", "other", "medium", some 5⟩, ⟨"t6", "T6", "other", "medium", some 5⟩]

/-- Every agent execution fails (rejected or timed out). -/
def noneOutcome : AgentTask → Option SingleAnalystResult := fun _ => none

/-- A file-system model with no files at all. -/
def exFsC9 : FsModel := ⟨fun _ => none, fun _ => [], fun _ => true, fun _ _ => false⟩

/-! ### C1 — budget ceiling -/

/-- C1 (counterexample): on ten surviving tasks with clamped budgets
8×5 + 2×25 = 90 > 70, the scale-down floors the eight small budgets at
5 and the returned budgets sum to 78 — strictly above the global
ceiling of 70, contradicting the claim that the sum is always ≤ 70. -/
theorem parsePlannerOutput_sum_exceeds_ceiling :
    plannerBudgetSum (parsePlannerOutput exTasksC1) = 78 ∧
    ¬ plannerBudgetSum (parsePlannerOutput exTasksC1) ≤ MAX_TOTAL_BUDGET := by
  decide

/-! ### C6 — task-count cap -/

/-- C6 (counterexample): with ten medium-priority tasks followed by one
critical task, the validator's cap keeps the first ten (all medium) and
drops the critical task, so a dropped task has strictly higher priority
than every retained one. -/
theorem parsePlannerOutput_cap_ignores_priority :
    (plannerTasks (parsePlannerOutput exTasksC6)).length = 10 ∧
    (∀ t ∈ plannerTasks (parsePlannerOutput exTasksC6), t.priority = "medium") ∧
    "crit" ∉ (plannerTasks (parsePlannerOutput exTasksC6)).map (·.id) ∧
    exCritTask ∈ exTasksC6 ∧ exCritTask.priority = "critical" ∧
    (normalizeTask exCritTask).isSome = true := by
  decide

/-! ### C5 — snap tolerance values -/

/-- C5 (counterexample): in the scenario's map the right-side pool of
`src/a.ts` is exactly 10–14 (maxing out at 14), yet snapping line 999
returns `none` — not 14 as claimed — because 14 is 985 lines away,
far beyond the fixed tolerance of 20. -/
theorem snapToValidLine_distant_request_none :
    mapGet exMapC5 "src/a.ts" = some ([10, 11, 12], [10, 11, 12, 13, 14]) ∧
    snapToValidLine "src/a.ts" 999 Side.RIGHT exMapC5 = none := by
  decide

/-- C5 (amended): with right-side valid lines maxing out at 14 and
tolerance 20, requesting line 999 and line 50 both return `null`
(distances 985 and 36 exceed the tolerance), while a request within
tolerance, line 30, snaps to 14. -/
theorem snapToValidLine_tolerance_values :
    snapToValidLine "src/a.ts" 999 Side.RIGHT exMapC5 = none ∧
    snapToValidLine "src/a.ts" 50 Side.RIGHT exMapC5 = none ∧
    snapToValidLine "src/a.ts" 30 Side.RIGHT exMapC5 = some 14 := by
  decide

/-! ### C2 / C3 counterexamples -/

/-- C2 (counterexample): a run whose task budget is `max_tool_calls = 1`
executes 2 actual tool invocations, because one reasoning round may
emit several invocations and the loop bounds rounds, not invocations. -/
theorem runSingleAnalyst_toolCalls_exceed_budget :
    exAgentTask.max_tool_calls = some 1 ∧
    (runSingleAnalyst exAgentTask exModelC2 exToolExec).toolCalls = 2 := by
  decide

/-- C3 (counterexample): when the final response carries no text block
at all, the `complete` path returns the extracted text verbatim and the
summary is the empty string. -/
theorem runSingleAnalyst_complete_summary_empty :
    (runSingleAnalyst exAgentTask exModelC3 exToolExec).stopReason = "complete" ∧
    (runSingleAnalyst exAgentTask exModelC3 exToolExec).summary = "" := by
  decide

/-! ### C4 counterexample -/

/-- C4 (counterexample): six submitted tasks, every execution failing:
the orchestrator returns `analysts = []`, but `failedTasks` covers only
the five tasks kept by the `MAX_PARALLEL_ANALYSTS` cap — the sixth
submitted task id is silently absent. -/
theorem runParallelAnalysts_misses_sixth_task :
    (runParallelAnalysts exTasks6 noneOutcome).analysts = [] ∧
    "t6" ∈ exTasks6.map (·.id) ∧
    "t6" ∉ (runParallelAnalysts exTasks6 noneOutcome).failedTasks := by
  decide

/-! ### C7 counterexample -/

/-- C7 (counterexample): in `exDiffC7` the hunk contains one added
content line, the raw line `+++y` (the added text `++y`).  The claim's
count — `+` content lines, excluding only the `+++` patch headers,
which sit before the first `@@` — is 1, but `parseDiff` counts 0
because its guard drops every line beginning `+++`, content or not. -/
theorem parseDiff_drops_plus_plus_content :
    ((parseDiff exDiffC7).map (·.additions)).sum = 0 ∧
    rawPlusContentCount exDiffC7 = 1 := by
  decide

/-! ### C4 amended theorem -/

/-- C4 (amended): with every agent execution failing, the orchestrator
still returns a result (it is a total function — the source never
throws, not even for zero tasks) with an empty analysts list, and
`failedTasks` lists exactly the ids of the tasks actually run: the
first `MAX_PARALLEL_ANALYSTS = 5` submitted tasks, in priority order —
not every submitted task id. -/
theorem runParallelAnalysts_all_failing (tasks : List AgentTask)
    (outcome : AgentTask → Option SingleAnalystResult)
    (h : ∀ t, outcome t = none) :
    (runParallelAnalysts tasks outcome).analysts = [] ∧
    (runParallelAnalysts tasks outcome).failedTasks =
      ((tasks.take MAX_PARALLEL_ANALYSTS).insertionSort
        (fun a b => prioNum a.priority ≤ prioNum b.priority)).map (·.id) := by
  constructor
  · simp [runParallelAnalysts, h]
  · simp [runParallelAnalysts, h, List.filter_eq_self]

/-- Witness for `runParallelAnalysts_all_failing` at the six-task input
with the all-failing outcome. -/
theorem runParallelAnalysts_all_failing_witness :
    (∀ t, noneOutcome t = none) ∧
    ((runParallelAnalysts exTasks6 noneOutcome).analysts = [] ∧
     (runParallelAnalysts exTasks6 noneOutcome).failedTasks =
       ((exTasks6.take MAX_PARALLEL_ANALYSTS).insertionSort
         (fun a b => prioNum a.priority ≤ prioNum b.priority)).map (·.id)) :=
  ⟨fun _ => rfl, runParallelAnalysts_all_failing exTasks6 noneOutcome (fun _ => rfl)⟩

/-! ### C6 amended theorem -/

/-- C6 (amended): the cap keeps the first ten surviving tasks in the
planner's output order and drops the rest, regardless of priority; the
returned list never exceeds ten tasks. -/
theorem parsePlannerOutput_cap_keeps_first_ten (tasks : List RawTask)
    (out : List AnalystTask) (h : parsePlannerOutput tasks = .ok out) :
    out = (scaleBudgets (clampedTotal tasks) (clampedTasks tasks)).take 10 ∧
    out.length ≤ 10 := by
  unfold parsePlannerOutput at h
  split at h
  · exact absurd h (by simp)
  · simp only [Except.ok.injEq] at h
    subst h
    exact ⟨rfl, by simp⟩

/-- Witness for `parsePlannerOutput_cap_keeps_first_ten` at the
eleven-task input. -/
theorem parsePlannerOutput_cap_keeps_first_ten_witness :
    plannerTasks (parsePlannerOutput exTasksC6) =
      (scaleBudgets (clampedTotal exTasksC6) (clampedTasks exTasksC6)).take 10 ∧
    (plannerTasks (parsePlannerOutput exTasksC6)).length ≤ 10 :=
  parsePlannerOutput_cap_keeps_first_ten exTasksC6
    (plannerTasks (parsePlannerOutput exTasksC6)) (by rfl)

/-! ### C2 / C3 amended theorems -/

/-- The loop executes at most `fuel` further rounds. -/
theorem runAnalystGo_iterations_le (task : AgentTask) (model : Nat → ModelResponse)
    (toolExec : String → String → String) :
    ∀ fuel c iters calls chars,
      (runAnalystGo task model toolExec fuel c iters calls chars).iterations ≤ iters + fuel := by
  intro fuel
  induction fuel with
  | zero => intro c iters calls chars; exact le_of_eq rfl
  | succ n ih =>
    intro c iters calls chars
    simp only [runAnalystGo]
    split
    · show iters + 1 ≤ iters + (n + 1)
      omega
    · split
      · show iters + 1 ≤ iters + (n + 1)
        omega
      · split
        · show iters + 1 ≤ iters + (n + 1)
          omega
        · exact le_trans (ih (c + 1) (iters + 1) _ _) (by omega)

/-- Tool invocations accumulate at most `B` per round when every model
round carries at most `B` tool-use blocks. -/
theorem runAnalystGo_toolCalls_le (task : AgentTask) (model : Nat → ModelResponse)
    (toolExec : String → String → String) (B : Nat)
    (hB : ∀ n, (toolUsesOf (model n)).length ≤ B) :
    ∀ fuel c iters calls chars, calls ≤ iters * B →
      (runAnalystGo task model toolExec fuel c iters calls chars).toolCalls ≤
        (runAnalystGo task model toolExec fuel c iters calls chars).iterations * B := by
  intro fuel
  induction fuel with
  | zero => intro c iters calls chars h; exact h
  | succ n ih =>
    intro c iters calls chars h
    have hstep : calls ≤ (iters + 1) * B :=
      le_trans h (Nat.mul_le_mul_right B (Nat.le_succ iters))
    have hstep2 : calls + (toolUsesOf (model c)).length ≤ (iters + 1) * B := by
      have := hB c
      have : calls + (toolUsesOf (model c)).length ≤ iters * B + B := by omega
      calc calls + (toolUsesOf (model c)).length ≤ iters * B + B := this
        _ = (iters + 1) * B := by ring
    simp only [runAnalystGo]
    split
    · exact hstep
    · split
      · exact hstep
      · split
        · exact hstep2
        · exact ih (c + 1) (iters + 1) _ _ hstep2

/-- C2 (amended): the loop never executes more reasoning rounds than the
task's `max_tool_calls` (default 20 when absent or 0), and the actual
tool invocations are bounded by rounds × the per-round maximum — they
can exceed `max_tool_calls` itself exactly when a single round emits
more than one invocation. -/
theorem runSingleAnalyst_bounds (task : AgentTask) (model : Nat → ModelResponse)
    (toolExec : String → String → String) (B : Nat)
    (hB : ∀ n, (toolUsesOf (model n)).length ≤ B) :
    (runSingleAnalyst task model toolExec).iterations ≤
      (effectiveMaxIterations task).toNat ∧
    (runSingleAnalyst task model toolExec).toolCalls ≤
      (runSingleAnalyst task model toolExec).iterations * B := by
  refine ⟨?_, ?_⟩
  · simpa using runAnalystGo_iterations_le task model toolExec
      (effectiveMaxIterations task).toNat 0 0 0 0
  · exact runAnalystGo_toolCalls_le task model toolExec B hB
      (effectiveMaxIterations task).toNat 0 0 0 0 (by omega)

/-- Witness for `runSingleAnalyst_bounds`: the two-invocations-per-round
model with budget 1. -/
theorem runSingleAnalyst_bounds_witness :
    (∀ n, (toolUsesOf (exModelC2 n)).length ≤ 2) ∧
    ((runSingleAnalyst exAgentTask exModelC2 exToolExec).iterations ≤
       (effectiveMaxIterations exAgentTask).toNat ∧
     (runSingleAnalyst exAgentTask exModelC2 exToolExec).toolCalls ≤
       (runSingleAnalyst exAgentTask exModelC2 exToolExec).iterations * 2) :=
  ⟨fun _ => le_of_eq rfl,
   runSingleAnalyst_bounds exAgentTask exModelC2 exToolExec 2 (fun _ => le_of_eq rfl)⟩

/-- The forced-summary selector never returns the empty string. -/
theorem summaryOrPlaceholder_ne_empty (t : String) : summaryOrPlaceholder t ≠ "" := by
  unfold summaryOrPlaceholder
  split
  · intro h
    subst h
    simp_all [jsTrim]
  · decide

/-- Every exit of the loop either reports `complete` or carries a
non-empty summary. -/
theorem runAnalystGo_summary_or_complete (task : AgentTask) (model : Nat → ModelResponse)
    (toolExec : String → String → String) :
    ∀ fuel c iters calls chars,
      (runAnalystGo task model toolExec fuel c iters calls chars).stopReason = "complete" ∨
      (runAnalystGo task model toolExec fuel c iters calls chars).summary ≠ "" := by
  intro fuel
  induction fuel with
  | zero =>
    intro c iters calls chars
    refine Or.inr ?_
    show "Analyst completed without producing a summary." ≠ ""
    decide
  | succ n ih =>
    intro c iters calls chars
    simp only [runAnalystGo]
    split
    · exact Or.inr (summaryOrPlaceholder_ne_empty _)
    · split
      · exact Or.inl rfl
      · split
        · exact Or.inr (summaryOrPlaceholder_ne_empty _)
        · exact ih (c + 1) (iters + 1) _ _

/-- C3 (amended): on every forced path — stop reasons `max_tokens`,
`context_budget`, `max_iterations`, `unexpected_exit` — the summary is
non-empty (the fixed placeholder substitutes for unusable text); on the
`complete` path the summary is the response's concatenated text, which
is empty when the final response carries no text. -/
theorem runSingleAnalyst_noncomplete_summary_nonempty (task : AgentTask)
    (model : Nat → ModelResponse) (toolExec : String → String → String)
    (h : (runSingleAnalyst task model toolExec).stopReason ≠ "complete") :
    (runSingleAnalyst task model toolExec).summary ≠ "" := by
  rcases runAnalystGo_summary_or_complete task model toolExec
    (effectiveMaxIterations task).toNat 0 0 0 0 with hc | hs
  · exact absurd hc h
  · exact hs

/-- Witness for `runSingleAnalyst_noncomplete_summary_nonempty` at a
forced `max_iterations` stop. -/
theorem runSingleAnalyst_noncomplete_summary_nonempty_witness :
    (runSingleAnalyst exAgentTask exModelC2 exToolExec).stopReason ≠ "complete" ∧
    (runSingleAnalyst exAgentTask exModelC2 exToolExec).summary ≠ "" :=
  ⟨by decide,
   runSingleAnalyst_noncomplete_summary_nonempty exAgentTask exModelC2 exToolExec (by decide)⟩

/-! ### C1 amended theorem -/

/-- Every surviving task's clamped budget lies in [5, 25]. -/
theorem mem_clampedTasks_budget {tasks : List RawTask} {t : AnalystTask}
    (h : t ∈ clampedTasks tasks) : 5 ≤ t.max_tool_calls ∧ t.max_tool_calls ≤ 25 := by
  unfold clampedTasks at h
  obtain ⟨r, _, hr⟩ := List.mem_filterMap.mp h
  simp only [normalizeTask] at hr
  split at hr
  · exact absurd hr (by simp)
  · split at hr
    · exact absurd hr (by simp)
    · obtain rfl := Option.some.injEq .. |>.mp hr
      simp only
      omega

/-- Dropping a suffix of a list of non-negative integers cannot grow the
sum. -/
theorem take_sum_le (l : List Int) (n : Nat) (h0 : ∀ x ∈ l, 0 ≤ x) :
    (l.take n).sum ≤ l.sum := by
  conv_rhs => rw [← List.take_append_drop n l]
  rw [List.sum_append]
  have hd : 0 ≤ (l.drop n).sum :=
    List.sum_nonneg (fun x hx => h0 x (List.mem_of_mem_drop hx))
  omega

/-- Floor division distributes sub-additively over addition. -/
theorem ediv_add_ediv_le (x y T : Int) (hT : 0 < T) : x / T + y / T ≤ (x + y) / T := by
  rw [Int.le_ediv_iff_mul_le hT]
  have h1 : (x / T + y / T) * T = T * (x / T) + T * (y / T) := by ring
  rw [h1]
  have hx := Int.ediv_add_emod x T
  have hy := Int.ediv_add_emod y T
  have hx2 := Int.emod_nonneg x (ne_of_gt hT)
  have hy2 := Int.emod_nonneg y (ne_of_gt hT)
  linarith

/-- Summing the scaled budgets cannot exceed the scaled sum. -/
theorem sum_ediv_le (T : Int) (hT : 0 < T) (bs : List Int) :
    ((bs.map (fun b => b * 70 / T)).sum) ≤ ((bs.map (fun b => b * 70)).sum) / T := by
  induction bs with
  | nil => simp
  | cons a l ih =>
    simp only [List.map_cons, List.sum_cons]
    calc a * 70 / T + ((l.map (fun b => b * 70 / T)).sum)
        ≤ a * 70 / T + ((l.map (fun b => b * 70)).sum) / T := by omega
      _ ≤ (a * 70 + ((l.map (fun b => b * 70)).sum)) / T := ediv_add_ediv_le _ _ _ hT

/-- Sum of a constant right multiple. -/
theorem sum_map_mul_const (l : List Int) (c : Int) :
    ((l.map (· * c)).sum) = l.sum * c := by
  induction l with
  | nil => simp
  | cons a t ih => simp [ih, add_mul]

/-- C1 (amended): every returned budget lies in [5, 25]; the returned
sum respects the ceiling of 70 whenever the clamped total already did,
and also after proportional scaling whenever no task's scaled share
falls below the floor of 5 — but when the floor binds, the scaled sum
can exceed 70. -/
theorem parsePlannerOutput_budget_bounds (tasks : List RawTask) (out : List AnalystTask)
    (h : parsePlannerOutput tasks = .ok out) :
    (∀ t ∈ out, 5 ≤ t.max_tool_calls ∧ t.max_tool_calls ≤ 25) ∧
    (clampedTotal tasks ≤ MAX_TOTAL_BUDGET →
      ((out.map (·.max_tool_calls)).sum) ≤ MAX_TOTAL_BUDGET) ∧
    (MAX_TOTAL_BUDGET < clampedTotal tasks →
      (∀ t ∈ clampedTasks tasks, 5 ≤ t.max_tool_calls * 70 / clampedTotal tasks) →
      ((out.map (·.max_tool_calls)).sum) ≤ MAX_TOTAL_BUDGET) := by
  have hout : out = (scaleBudgets (clampedTotal tasks) (clampedTasks tasks)).take 10 := by
    unfold parsePlannerOutput at h
    split at h
    · exact absurd h (by simp)
    · simpa using h.symm
  refine ⟨?_, ?_, ?_⟩
  · intro t ht
    rw [hout] at ht
    have ht' := List.mem_of_mem_take ht
    unfold scaleBudgets at ht'
    split at ht'
    case isTrue hgt =>
      obtain ⟨u, hu, hut⟩ := List.mem_map.mp ht'
      have hb := mem_clampedTasks_budget hu
      have hTpos : (0 : Int) < clampedTotal tasks := by
        simp only [MAX_TOTAL_BUDGET] at hgt
        omega
      have hdivle : u.max_tool_calls * 70 / clampedTotal tasks ≤ u.max_tool_calls := by
        have h70 : u.max_tool_calls * 70 ≤ u.max_tool_calls * clampedTotal tasks := by
          have : (70 : Int) ≤ clampedTotal tasks := by
            simp only [MAX_TOTAL_BUDGET] at hgt
            omega
          nlinarith [hb.1]
        calc u.max_tool_calls * 70 / clampedTotal tasks
            ≤ u.max_tool_calls * clampedTotal tasks / clampedTotal tasks :=
              Int.ediv_le_ediv hTpos h70
          _ = u.max_tool_calls := Int.mul_ediv_cancel _ (ne_of_gt hTpos)
      subst hut
      refine ⟨le_max_left _ _, ?_⟩
      show max 5 (u.max_tool_calls * 70 / clampedTotal tasks) ≤ 25
      omega
    case isFalse =>
      exact mem_clampedTasks_budget ht'
  · intro hle
    rw [hout]
    unfold scaleBudgets
    rw [if_neg (by simpa using not_lt.mpr hle)]
    have hnn : ∀ x ∈ (clampedTasks tasks).map (·.max_tool_calls), 0 ≤ x := by
      intro x hx
      obtain ⟨u, hu, hux⟩ := List.mem_map.mp hx
      have := mem_clampedTasks_budget hu
      omega
    calc (((clampedTasks tasks).take 10).map (·.max_tool_calls)).sum
        = (((clampedTasks tasks).map (·.max_tool_calls)).take 10).sum := by
          rw [List.map_take]
      _ ≤ ((clampedTasks tasks).map (·.max_tool_calls)).sum := take_sum_le _ _ hnn
      _ = clampedTotal tasks := rfl
      _ ≤ MAX_TOTAL_BUDGET := hle
  · intro hgt hfloor
    rw [hout]
    unfold scaleBudgets
    rw [if_pos (by simpa using hgt)]
    have hTpos : (0 : Int) < clampedTotal tasks := by
      simp only [MAX_TOTAL_BUDGET] at hgt
      omega
    have hmapped :
        ((clampedTasks tasks).map
          (fun t => { t with max_tool_calls := max 5 (t.max_tool_calls * 70 / clampedTotal tasks) })).map
            (·.max_tool_calls)
        = (clampedTasks tasks).map (fun t => t.max_tool_calls * 70 / clampedTotal tasks) := by
      rw [List.map_map]
      refine List.map_congr_left ?_
      intro t ht
      simp [max_eq_right (hfloor t ht)]
    have hnn : ∀ x ∈ ((clampedTasks tasks).map
        (fun t => { t with max_tool_calls := max 5 (t.max_tool_calls * 70 / clampedTotal tasks) })).map
          (·.max_tool_calls), 0 ≤ x := by
      intro x hx
      rw [hmapped] at hx
      obtain ⟨u, hu, hux⟩ := List.mem_map.mp hx
      have := hfloor u hu
      omega
    calc ((((clampedTasks tasks).map
            (fun t => { t with max_tool_calls := max 5 (t.max_tool_calls * 70 / clampedTotal tasks) })).take 10).map
              (·.max_tool_calls)).sum
        = ((((clampedTasks tasks).map
            (fun t => { t with max_tool_calls := max 5 (t.max_tool_calls * 70 / clampedTotal tasks) })).map
              (·.max_tool_calls)).take 10).sum := by
          rw [List.map_take]
      _ ≤ (((clampedTasks tasks).map
            (fun t => { t with max_tool_calls := max 5 (t.max_tool_calls * 70 / clampedTotal tasks) })).map
              (·.max_tool_calls)).sum := take_sum_le _ _ hnn
      _ = ((clampedTasks tasks).map (fun t => t.max_tool_calls * 70 / clampedTotal tasks)).sum := by
          rw [hmapped]
      _ = (((clampedTasks tasks).map (·.max_tool_calls)).map
            (fun b => b * 70 / clampedTotal tasks)).sum := by
          rw [List.map_map]
          rfl
      _ ≤ (((clampedTasks tasks).map (·.max_tool_calls)).map (fun b => b * 70)).sum /
            clampedTotal tasks := sum_ediv_le _ hTpos _
      _ = (clampedTotal tasks * 70) / clampedTotal tasks := by
          rw [sum_map_mul_const]
          rfl
      _ = 70 := by
          rw [mul_comm]
          exact Int.mul_ediv_cancel 70 (ne_of_gt hTpos)
      _ ≤ MAX_TOTAL_BUDGET := le_refl _

/-- Witness for `parsePlannerOutput_budget_bounds` at the ten-task
input whose scaling binds the floor. -/
theorem parsePlannerOutput_budget_bounds_witness :
    (∀ t ∈ plannerTasks (parsePlannerOutput exTasksC1),
      5 ≤ t.max_tool_calls ∧ t.max_tool_calls ≤ 25) ∧
    (clampedTotal exTasksC1 ≤ MAX_TOTAL_BUDGET →
      (((plannerTasks (parsePlannerOutput exTasksC1)).map (·.max_tool_calls)).sum) ≤
        MAX_TOTAL_BUDGET) ∧
    (MAX_TOTAL_BUDGET < clampedTotal exTasksC1 →
      (∀ t ∈ clampedTasks exTasksC1, 5 ≤ t.max_tool_calls * 70 / clampedTotal exTasksC1) →
      (((plannerTasks (parsePlannerOutput exTasksC1)).map (·.max_tool_calls)).sum) ≤
        MAX_TOTAL_BUDGET) :=
  parsePlannerOutput_budget_bounds exTasksC1
    (plannerTasks (parsePlannerOutput exTasksC1)) (by rfl)

/-! ### C9 — path traversal rejection -/

/-- Lemma: `dropCommon` empties its first component exactly on prefixes. -/
theorem dropCommon_fst_nil_iff : ∀ (a b : List String), (dropCommon a b).1 = [] ↔ a <+: b := by
  intro a
  induction a with
  | nil =>
    intro b
    cases b <;> simp [dropCommon]
  | cons x xs ih =>
    intro b
    cases b with
    | nil => simp [dropCommon]
    | cons y ys =>
      by_cases hxy : x = y
      · subst hxy
        simp [dropCommon, ih ys, List.cons_prefix_cons]
      · simp [dropCommon, hxy, List.cons_prefix_cons]

/-- A resolved path that is not under the root relativizes to a path
beginning with `..`. -/
theorem relIsTraversal_of_outside (a b : List String) (h : ¬ a <+: b) :
    relIsTraversal (relativeSegs a b) = true := by
  have hne : (dropCommon a b).1 ≠ [] := fun hh => h ((dropCommon_fst_nil_iff a b).mp hh)
  unfold relativeSegs relIsTraversal
  cases hd : (dropCommon a b).1 with
  | nil => exact absurd hd hne
  | cons s ss =>
    show (strStartsWith ".." ".." || strStartsWith ".." "/") = true
    decide

/-- Lemma: `safePath` throws on every filepath resolving outside the root. -/
theorem safePath_outside (root : List String) (fp : String)
    (h : resolvesOutside root fp) :
    safePath root fp = .error ("Path traversal not allowed: \"" ++ fp ++ "\"") := by
  unfold safePath
  rw [if_pos (relIsTraversal_of_outside root (joinPath root fp) h)]

/-- C9 (amended): every invocation of the four repository tools whose
path argument resolves outside the repository root yields the error
result — `safePath` throws before anything is read and `executeTool`
catches the throw — except the one pre-`safePath` short-circuit:
`search_in_file` with a whitespace-only pattern answers with its
"empty pattern" message (still reading nothing). -/
theorem executeTool_traversal_rejected (fs : FsModel) (root : List String)
    (toolName : String) (input : ToolInput)
    (hname : toolName = "search_in_file" ∨ toolName = "get_lines" ∨
             toolName = "get_file_info" ∨ toolName = "list_files")
    (hout : resolvesOutside root
      (if toolName = "list_files" then input.directory else input.filepath))
    (hpat : toolName = "search_in_file" → ∀ p, input.pattern = some p → jsTrim p ≠ "") :
    (executeTool fs root toolName input).isError = true := by
  rcases hname with hn | hn | hn | hn
  · subst hn
    rw [if_neg (by decide : ¬ ("search_in_file" = "list_files"))] at hout
    have hsp := safePath_outside root input.filepath hout
    cases hp : input.pattern with
    | none => simp [executeTool, hp, ToolResult.isError]
    | some p =>
      have hptrim := hpat rfl p hp
      simp [executeTool, hp, searchInFile, hptrim, hsp, ToolResult.isError,
        Bind.bind, Except.bind, Pure.pure, Except.pure]
  · subst hn
    rw [if_neg (by decide : ¬ ("get_lines" = "list_files"))] at hout
    have hsp := safePath_outside root input.filepath hout
    simp [executeTool, getLines, hsp, ToolResult.isError, Bind.bind, Except.bind,
      Functor.map, Except.map]
  · subst hn
    rw [if_neg (by decide : ¬ ("get_file_info" = "list_files"))] at hout
    have hsp := safePath_outside root input.filepath hout
    simp [executeTool, getFileInfo, hsp, ToolResult.isError, Bind.bind, Except.bind]
  · subst hn
    simp only [if_pos rfl] at hout
    have hsp := safePath_outside root input.directory hout
    simp [executeTool, listFiles, hsp, ToolResult.isError, Bind.bind, Except.bind,
      Functor.map, Except.map]

/-- Witness for `executeTool_traversal_rejected`: a `get_lines` request
for `../../etc/passwd`. -/
theorem executeTool_traversal_rejected_witness :
    resolvesOutside ["repo"] "../../etc/passwd" ∧
    (executeTool exFsC9 ["repo"] "get_lines"
      ⟨"../../etc/passwd", none, 1, 10, ""⟩).isError = true :=
  ⟨by decide,
   executeTool_traversal_rejected exFsC9 ["repo"] "get_lines"
     ⟨"../../etc/passwd", none, 1, 10, ""⟩ (Or.inr (Or.inl rfl))
     (by decide) (fun hh => absurd hh (by decide))⟩

/-- C9 (counterexample): a `search_in_file` invocation whose filepath
resolves outside the root but whose pattern is empty returns the
"empty pattern" success shape — not an error result — because the
pattern check precedes `safePath`. -/
theorem executeTool_empty_pattern_no_error :
    resolvesOutside ["repo"] "../secret" ∧
    (executeTool exFsC9 ["repo"] "search_in_file"
      ⟨"../secret", some "", 0, 0, ""⟩).isError = false := by
  decide

/-! ### C7 amended theorem -/

/-- A string beginning with `c :: cs` has head `c`. -/
theorem head_of_strStartsWith {l p : String} {c : Char} {cs : List Char}
    (hp : p.data = c :: cs) (h : strStartsWith l p = true) : l.data.head? = some c := by
  unfold strStartsWith at h
  rw [hp] at h
  cases hl : l.data with
  | nil => rw [hl] at h; simp [charsStartWith] at h
  | cons x xs =>
    rw [hl] at h
    simp only [charsStartWith, Bool.and_eq_true, decide_eq_true_eq] at h
    simp [h.1]

/-- A string whose head differs from `d` does not begin with `d :: ds`. -/
theorem strStartsWith_false_of_head {l q : String} {c d : Char} {ds : List Char}
    (hl : l.data.head? = some c) (hq : q.data = d :: ds) (hne : c ≠ d) :
    strStartsWith l q = false := by
  unfold strStartsWith
  rw [hq]
  cases hld : l.data with
  | nil => rw [hld] at hl; simp at hl
  | cons x xs =>
    rw [hld] at hl
    simp only [List.head?_cons, Option.some.injEq] at hl
    subst hl
    simp [charsStartWith, hne]

/-- A hunk-header line is not a `+`/`-` content line. -/
theorem hunk_header_not_content {l : String} (h : strStartsWith l "@@" = true) :
    plusContent l = false ∧ minusContent l = false := by
  have hd : l.data.head? = some '@' :=
    head_of_strStartsWith (rfl : ("@@" : String).data = '@' :: ['@']) h
  constructor
  · simp [plusContent,
      strStartsWith_false_of_head hd (rfl : ("+" : String).data = '+' :: []) (by decide)]
  · simp [minusContent,
      strStartsWith_false_of_head hd (rfl : ("-" : String).data = '-' :: []) (by decide)]

/-- A no-newline marker line is not a `+`/`-` content line. -/
theorem marker_not_content {l : String} (h : strStartsWith l "\\ No newline" = true) :
    plusContent l = false ∧ minusContent l = false := by
  have hd : l.data.head? = some '\\' :=
    head_of_strStartsWith
      (rfl : ("\\ No newline" : String).data =
        '\\' :: [' ', 'N', 'o', ' ', 'n', 'e', 'w', 'l', 'i', 'n', 'e']) h
  constructor
  · simp [plusContent,
      strStartsWith_false_of_head hd (rfl : ("+" : String).data = '+' :: []) (by decide)]
  · simp [minusContent,
      strStartsWith_false_of_head hd (rfl : ("-" : String).data = '-' :: []) (by decide)]

/-- The hunk walk counts, for any starting state: inside the hunks every
`+`/`-` content line of the remainder is counted, outside them counting
starts at the first hunk header. -/
theorem sectionFold_counts : ∀ (lines : List String) (st : SectionWalk),
    (lines.foldl sectionStep st).additions =
      st.additions +
        (if st.inPatch then (lines.filter plusContent).length else sectionAdds lines) ∧
    (lines.foldl sectionStep st).deletions =
      st.deletions +
        (if st.inPatch then (lines.filter minusContent).length else sectionDels lines) := by
  intro lines
  induction lines with
  | nil =>
    intro st
    simp [sectionAdds, sectionDels, sectionPatchLines]
  | cons l ls ih =>
    intro st
    rw [List.foldl_cons]
    obtain ⟨iha, ihd⟩ := ih (sectionStep st l)
    rw [iha, ihd]
    by_cases h1 : strStartsWith l "@@" = true
    · obtain ⟨hplus, hminus⟩ := hunk_header_not_content h1
      have hadds : (sectionStep st l).additions = st.additions := by simp [sectionStep, h1]
      have hdels : (sectionStep st l).deletions = st.deletions := by simp [sectionStep, h1]
      have hinp : (sectionStep st l).inPatch = true := by simp [sectionStep, h1]
      rw [hadds, hdels, hinp]
      cases hp : st.inPatch
      · simp [sectionAdds, sectionDels, sectionPatchLines, List.dropWhile_cons, h1,
          List.filter_cons, hplus, hminus]
      · simp [List.filter_cons, hplus, hminus]
    · cases hp : st.inPatch with
      | false =>
        have hstep : sectionStep st l = st := by simp [sectionStep, h1, hp]
        rw [hstep, hp]
        simp [sectionAdds, sectionDels, sectionPatchLines, List.dropWhile_cons, h1]
      | true =>
        by_cases h2 : strStartsWith l "\\ No newline" = true
        · obtain ⟨hplus, hminus⟩ := marker_not_content h2
          have hstep : sectionStep st l = st := by simp [sectionStep, h1, h2]
          rw [hstep, hp]
          simp [List.filter_cons, hplus, hminus]
        · have hadds : (sectionStep st l).additions =
              st.additions + (if plusContent l then 1 else 0) := by
            simp [sectionStep, h1, hp, h2]
          have hdels : (sectionStep st l).deletions =
              st.deletions + (if minusContent l then 1 else 0) := by
            simp [sectionStep, h1, hp, h2]
          have hinp : (sectionStep st l).inPatch = true := by
            simp [sectionStep, h1, hp, h2]
          rw [hadds, hdels, hinp]
          constructor
          · by_cases hpl : plusContent l = true
            · simp [List.filter_cons, hpl]
              omega
            · simp [List.filter_cons, hpl]
          · by_cases hml : minusContent l = true
            · simp [List.filter_cons, hml]
              omega
            · simp [List.filter_cons, hml]

/-- A parsed entry's counters equal the declarative per-section counts. -/
theorem parseSection_counts {lines : List String} {e : FileDiffEntry}
    (h : parseSection lines = some e) :
    e.additions = sectionAdds lines ∧ e.deletions = sectionDels lines := by
  cases lines with
  | nil => exact absurd h (by simp [parseSection])
  | cons headerLine rest =>
    cases hph : parseHeaderPaths headerLine with
    | none => simp [parseSection, hph] at h
    | some p =>
      obtain ⟨o, n⟩ := p
      simp only [parseSection, hph] at h
      rw [Option.some.injEq] at h
      subst h
      obtain ⟨ha, hd⟩ := sectionFold_counts (headerLine :: rest) ⟨[], 0, 0, [], false⟩
      simp at ha hd
      exact ⟨ha, hd⟩

/-- C7 (amended): for every diff text, `sum(entry.additions)` equals the
number of lines at or after the first hunk header of a section whose
header parses that begin with `+` but not `+++` — the `+++` patch
headers (which precede the hunks) are excluded, and so is any added
content line itself beginning `++`; symmetrically for deletions; the
"no newline" marker begins with a backslash and is counted by
neither side. -/
theorem parseDiff_counts_eq_raw (raw : String) :
    ((parseDiff raw).map (·.additions)).sum = rawAdditions raw ∧
    ((parseDiff raw).map (·.deletions)).sum = rawDeletions raw := by
  unfold parseDiff rawAdditions rawDeletions
  induction diffSections raw with
  | nil => simp
  | cons s ss ih =>
    cases h : parseSection s with
    | none => simpa [List.filterMap_cons, List.filter_cons, h] using ih
    | some e =>
      obtain ⟨ha, hd⟩ := parseSection_counts h
      simp [List.filterMap_cons, List.filter_cons, h, ha, hd, ih.1, ih.2]

/-! ### C8 — snap idempotence -/

/-- Comparing `getD` at two positions of a strictly sorted list. -/
theorem sorted_getD_lt {l : List Int} (hs : l.Sorted (· < ·)) {i j : Nat}
    (hij : i < j) (hj : j < l.length) : l.getD i 0 < l.getD j 0 := by
  have hi : i < l.length := lt_trans hij hj
  rw [List.getD_eq_getElem?_getD, List.getD_eq_getElem?_getD,
    List.getElem?_eq_getElem hi, List.getElem?_eq_getElem hj]
  exact hs.rel_get_of_lt hij

/-- A member of a list sits at some index. -/
theorem mem_getD_index {l : List Int} {t : Int} (h : t ∈ l) :
    ∃ i : Nat, i < l.length ∧ l.getD i 0 = t := by
  obtain ⟨n, hn⟩ := List.mem_iff_get.mp h
  refine ⟨n, n.isLt, ?_⟩
  rw [List.getD_eq_getElem?_getD, List.getElem?_eq_getElem n.isLt]
  exact hn

/-- A `getD` value at an in-range index is a member. -/
theorem getD_mem {l : List Int} {i : Nat} (h : i < l.length) : l.getD i 0 ∈ l := by
  rw [List.getD_eq_getElem?_getD, List.getElem?_eq_getElem h]
  exact l.getElem_mem h

/-- The binary-search loop finds a present target: the searched range
always brackets a witness index. -/
theorem findClosestGo_of_mem (l : List Int) (t maxDist : Int) (hs : l.Sorted (· < ·)) :
    ∀ (fuel : Nat) (lo hi : Int), 0 ≤ lo → hi < (l.length : Int) →
      (hi + 1 - lo).toNat ≤ fuel →
      (∃ i : Nat, lo ≤ (i : Int) ∧ (i : Int) ≤ hi ∧ l.getD i 0 = t) →
      findClosestGo l t maxDist fuel lo hi = some t := by
  intro fuel
  induction fuel with
  | zero =>
    intro lo hi _ _ hf hw
    obtain ⟨i, h1, h2, _⟩ := hw
    exfalso
    omega
  | succ n ih =>
    intro lo hi hlo hhi hf hw
    obtain ⟨i, hi1, hi2, hit⟩ := hw
    have hlohi : lo ≤ hi := le_trans hi1 hi2
    rw [findClosestGo, if_pos hlohi]
    have hmlo : lo ≤ (lo + hi) / 2 := by omega
    have hmhi : (lo + hi) / 2 ≤ hi := by omega
    by_cases he : l.getD ((lo + hi) / 2).toNat 0 = t
    · rw [if_pos he]
    · rw [if_neg he]
      by_cases hlt : l.getD ((lo + hi) / 2).toNat 0 < t
      · rw [if_pos hlt]
        refine ih ((lo + hi) / 2 + 1) hi (by omega) hhi (by omega) ⟨i, ?_, hi2, hit⟩
        by_contra hcon
        push_neg at hcon
        have hile : i ≤ ((lo + hi) / 2).toNat := by omega
        rcases lt_or_eq_of_le hile with hilt | hieq
        · have := sorted_getD_lt hs hilt (by omega)
          rw [hit] at this
          omega
        · rw [hieq] at hit
          exact he hit
      · rw [if_neg hlt]
        have hgt : t < l.getD ((lo + hi) / 2).toNat 0 :=
          lt_of_le_of_ne (not_lt.mp hlt) (fun hh => he hh.symm)
        refine ih lo ((lo + hi) / 2 - 1) hlo (by omega) (by omega) ⟨i, hi1, ?_, hit⟩
        by_contra hcon
        push_neg at hcon
        have hige : ((lo + hi) / 2).toNat ≤ i := by omega
        rcases lt_or_eq_of_le hige with higt | hieq
        · have := sorted_getD_lt hs higt (by omega)
          rw [hit] at this
          omega
        · rw [← hieq] at hit
          exact he hit

/-- Lemma: `findClosest` returns a present target unchanged. -/
theorem findClosest_of_mem (l : List Int) (t maxDist : Int) (hs : l.Sorted (· < ·))
    (ht : t ∈ l) : findClosest l t maxDist = some t := by
  unfold findClosest
  have hlen : l.length ≠ 0 := by
    intro hz
    rw [List.length_eq_zero] at hz
    subst hz
    exact absurd ht (List.not_mem_nil t)
  rw [if_neg hlen]
  obtain ⟨i, hi, hit⟩ := mem_getD_index ht
  exact findClosestGo_of_mem l t maxDist hs l.length 0 ((l.length : Int) - 1)
    (le_refl 0) (by omega) (by omega) ⟨i, by omega, by omega, hit⟩

/-- Lemma: `jsSetDedupGo` never emits an element of `seen` and has no
duplicates. -/
theorem jsSetDedupGo_nodup : ∀ (l : List Int) (seen : List Int),
    (jsSetDedupGo seen l).Nodup ∧ ∀ x ∈ jsSetDedupGo seen l, x ∉ seen := by
  intro l
  induction l with
  | nil => intro seen; simp [jsSetDedupGo]
  | cons x xs ih =>
    intro seen
    by_cases hx : x ∈ seen
    · rw [jsSetDedupGo, if_pos hx]
      exact ih seen
    · rw [jsSetDedupGo, if_neg hx]
      obtain ⟨hnd, hns⟩ := ih (x :: seen)
      refine ⟨List.nodup_cons.mpr ⟨fun hmem => ?_, hnd⟩, ?_⟩
      · exact hns x hmem (List.mem_cons_self x seen)
      · intro y hy
        rcases List.mem_cons.mp hy with rfl | hy'
        · exact hx
        · exact fun hyseen => hns y hy' (List.mem_cons_of_mem x hyseen)

/-- The pools of `buildValidLineMap` are strictly sorted. -/
theorem dedupSort_sorted (l : List Int) : (dedupSort l).Sorted (· < ·) := by
  unfold dedupSort
  have hle : (List.insertionSort (· ≤ ·) (jsSetDedup l)).Sorted (· ≤ ·) :=
    List.sorted_insertionSort _ _
  have hnd : (List.insertionSort (· ≤ ·) (jsSetDedup l)).Nodup :=
    (List.perm_insertionSort _ _).symm.nodup (jsSetDedupGo_nodup l []).1
  exact (hle.and hnd).imp (fun hh => lt_of_le_of_ne hh.1 hh.2)

/-- Reading `mapGet` after `mapSet`. -/
theorem mapGet_mapSet (m : ValidLineMap) (k : String) (v : List Int × List Int)
    (k' : String) :
    mapGet (mapSet m k v) k' = if k = k' then some v else mapGet m k' := by
  induction m with
  | nil =>
    by_cases hk : k = k' <;> simp [mapSet, mapGet, hk]
  | cons p rest ih =>
    obtain ⟨k1, v1⟩ := p
    by_cases h1 : k1 = k
    · subst h1
      by_cases hk : k1 = k' <;> simp [mapSet, mapGet, hk]
    · by_cases hk' : k1 = k'
      · subst hk'
        have : ¬ k = k1 := fun hh => h1 hh.symm
        simp [mapSet, mapGet, h1, this]
      · simp [mapSet, mapGet, h1, hk', ih]

/-- Values reachable through one `buildStep` are old values or
`patchPools` images. -/
theorem buildStep_sorted {m : ValidLineMap} {f : GitHubFile} {k : String}
    {v : List Int × List Int}
    (hm : ∀ k v, mapGet m k = some v → v.1.Sorted (· < ·) ∧ v.2.Sorted (· < ·))
    (h : mapGet (buildStep m f) k = some v) :
    v.1.Sorted (· < ·) ∧ v.2.Sorted (· < ·) := by
  cases hp : f.patch with
  | none =>
    have hb : buildStep m f = m := by
      unfold buildStep
      rw [hp]
    rw [hb] at h
    exact hm k v h
  | some p =>
    have hb : buildStep m f = if p = "" then m else mapSet m f.filename (patchPools p) := by
      unfold buildStep
      rw [hp]
    rw [hb] at h
    by_cases hpe : p = ""
    · rw [if_pos hpe] at h
      exact hm k v h
    · rw [if_neg hpe, mapGet_mapSet] at h
      split at h
      · obtain rfl := (Option.some.injEq .. |>.mp h).symm
        exact ⟨dedupSort_sorted _, dedupSort_sorted _⟩
      · exact hm k v h

/-- Every value stored in the valid-line map is a `patchPools` image, so
both its sides are strictly sorted. -/
theorem buildValidLineMap_sorted {files : List GitHubFile} {file : String}
    {pools : List Int × List Int}
    (h : mapGet (buildValidLineMap files) file = some pools) :
    pools.1.Sorted (· < ·) ∧ pools.2.Sorted (· < ·) := by
  unfold buildValidLineMap at h
  suffices haux : ∀ (fs : List GitHubFile) (m : ValidLineMap),
      (∀ k v, mapGet m k = some v → v.1.Sorted (· < ·) ∧ v.2.Sorted (· < ·)) →
      ∀ k v, mapGet (fs.foldl buildStep m) k = some v →
        v.1.Sorted (· < ·) ∧ v.2.Sorted (· < ·) by
    exact haux files [] (by intro k v hkv; simp [mapGet] at hkv) file pools h
  intro fs
  induction fs with
  | nil => intro m hm k v hkv; exact hm k v hkv
  | cons f rest ih =>
    intro m hm k v hkv
    rw [List.foldl_cons] at hkv
    exact ih (buildStep m f) (fun k1 v1 hk1 => buildStep_sorted hm hk1) k v hkv

/-- C8: snap is idempotent — for every file present in the valid-line
map, every side, and every requested line already in that file's
valid-line sequence for that side, `snapToValidLine` returns exactly
that line. -/
theorem snapToValidLine_idempotent (files : List GitHubFile) (file : String)
    (pools : List Int × List Int) (side : Side) (line : Int)
    (hmap : mapGet (buildValidLineMap files) file = some pools)
    (hline : line ∈ (if side = Side.RIGHT then pools.2 else pools.1)) :
    snapToValidLine file line side (buildValidLineMap files) = some line := by
  unfold snapToValidLine
  rw [hmap]
  obtain ⟨hleft, hright⟩ := buildValidLineMap_sorted hmap
  cases side with
  | RIGHT =>
    show findClosest pools.2 line 20 = some line
    exact findClosest_of_mem _ _ _ hright (by simpa using hline)
  | LEFT =>
    show findClosest pools.1 line 20 = some line
    exact findClosest_of_mem _ _ _ hleft (by simpa using hline)

/-- Witness for `snapToValidLine_idempotent`: line 12 of the snap
scenario's map is valid on the right side and snaps to itself. -/
theorem snapToValidLine_idempotent_witness :
    mapGet exMapC5 "src/a.ts" = some ([10, 11, 12], [10, 11, 12, 13, 14]) ∧
    (12 : Int) ∈ (if Side.RIGHT = Side.RIGHT then
      (([10, 11, 12], [10, 11, 12, 13, 14]) : List Int × List Int).2 else
      (([10, 11, 12], [10, 11, 12, 13, 14]) : List Int × List Int).1) ∧
    snapToValidLine "src/a.ts" 12 Side.RIGHT (buildValidLineMap [exFileC5]) = some 12 :=
  ⟨by decide, by decide,
   snapToValidLine_idempotent [exFileC5] "src/a.ts" ([10, 11, 12], [10, 11, 12, 13, 14])
     Side.RIGHT 12 (by decide) (by decide)⟩

/-! ### C10 — the binary-search snap refines the linear scan -/

/-- The binary-search loop on a missing target stops at the insertion
point `k` and inspects exactly the two neighbors `k - 1`, `k`. -/
theorem findClosestGo_not_mem (l : List Int) (t maxDist : Int) (hs : l.Sorted (· < ·))
    (hnm : t ∉ l) :
    ∀ (fuel : Nat) (lo hi : Int), 0 ≤ lo → hi < (l.length : Int) → lo ≤ hi + 1 →
      (hi + 1 - lo).toNat ≤ fuel →
      (∀ i : Nat, (i : Int) < lo → l.getD i 0 < t) →
      (∀ i : Nat, hi < (i : Int) → i < l.length → t < l.getD i 0) →
      ∃ k : Nat,
        findClosestGo l t maxDist fuel lo hi = neighborBest l t maxDist ((k : Int) - 1) k ∧
        k ≤ l.length ∧
        (∀ i : Nat, i < k → l.getD i 0 < t) ∧
        (∀ i : Nat, k ≤ i → i < l.length → t < l.getD i 0) := by
  intro fuel
  induction fuel with
  | zero =>
    intro lo hi hlo hhi hlohi hf hleft hright
    refine ⟨lo.toNat, ?_, by omega, fun i hik => hleft i (by omega),
      fun i hik hil => hright i (by omega) hil⟩
    have h1 : ((lo.toNat : Int)) = lo := Int.toNat_of_nonneg hlo
    rw [findClosestGo, h1, (by omega : hi = lo - 1)]
  | succ n ih =>
    intro lo hi hlo hhi hlohi hf hleft hright
    by_cases hle : lo ≤ hi
    · rw [findClosestGo, if_pos hle]
      have hmlo : lo ≤ (lo + hi) / 2 := by omega
      have hmhi : (lo + hi) / 2 ≤ hi := by omega
      by_cases he : l.getD ((lo + hi) / 2).toNat 0 = t
      · exact absurd (he ▸ getD_mem (by omega)) hnm
      · rw [if_neg he]
        by_cases hlt : l.getD ((lo + hi) / 2).toNat 0 < t
        · rw [if_pos hlt]
          refine ih ((lo + hi) / 2 + 1) hi (by omega) hhi (by omega) (by omega) ?_ hright
          intro i hi2
          by_cases hilo : (i : Int) < lo
          · exact hleft i hilo
          · rcases lt_or_eq_of_le (show i ≤ ((lo + hi) / 2).toNat by omega) with hh | hh
            · exact lt_trans (sorted_getD_lt hs hh (by omega)) hlt
            · rw [hh]; exact hlt
        · rw [if_neg hlt]
          have hgt : t < l.getD ((lo + hi) / 2).toNat 0 :=
            lt_of_le_of_ne (not_lt.mp hlt) (fun hh => he hh.symm)
          refine ih lo ((lo + hi) / 2 - 1) hlo (by omega) (by omega) (by omega) hleft ?_
          intro i hi2 hil
          rcases lt_or_eq_of_le (show ((lo + hi) / 2).toNat ≤ i by omega) with hh | hh
          · exact lt_trans hgt (sorted_getD_lt hs hh hil)
          · rw [← hh]; exact hgt
    · refine ⟨lo.toNat, ?_, by omega, fun i hik => hleft i (by omega),
        fun i hik hil => hright i (by omega) hil⟩
      have h1 : ((lo.toNat : Int)) = lo := Int.toNat_of_nonneg hlo
      rw [findClosestGo, if_neg hle, h1, (by omega : hi = lo - 1)]

/-- An improving element replaces the scan state. -/
theorem scanStep_eq_of_improves (t : Int) (st : Option (Int × Int)) (y : Int)
    (h : scanImproves st (|y - t|)) : scanStep t st y = some (y, |y - t|) := by
  cases st with
  | none => exact if_pos h
  | some p =>
    obtain ⟨b, bd⟩ := p
    exact if_pos h

/-- A non-improving element leaves the scan state unchanged. -/
theorem scanStep_eq_of_not_improves (t : Int) (st : Option (Int × Int)) (y : Int)
    (h : ¬ scanImproves st (|y - t|)) : scanStep t st y = st := by
  cases st with
  | none => exact if_neg h
  | some p =>
    obtain ⟨b, bd⟩ := p
    exact if_neg h

/-- A scan over elements that never improve is the identity. -/
theorem scan_fold_const (t : Int) : ∀ (ys : List Int) (st : Option (Int × Int)),
    (∀ y ∈ ys, ¬ scanImproves st (|y - t|)) → ys.foldl (scanStep t) st = st := by
  intro ys
  induction ys with
  | nil => intro st _; rfl
  | cons y rest ih =>
    intro st h
    rw [List.foldl_cons, scanStep_eq_of_not_improves t st y (h y (List.mem_cons_self y rest))]
    exact ih st (fun z hz => h z (List.mem_cons_of_mem y hz))

/-- Scanning an ascending run entirely below the target ends at its last
element (distances shrink towards it), provided the incoming state is
farther away than the whole run. -/
theorem scan_left (t : Int) : ∀ (xs : List Int), xs.Sorted (· < ·) → (∀ x ∈ xs, x < t) →
    ∀ st : Option (Int × Int),
      (st = none ∨ ∃ b bd, st = some (b, bd) ∧ ∀ x ∈ xs, |x - t| < bd) →
      xs.foldl (scanStep t) st =
        (match xs.getLast? with
         | none => st
         | some a => if |a - t| ≤ 20 then some (a, |a - t|) else st) := by
  intro xs
  induction xs with
  | nil => intro _ _ st _; rfl
  | cons x rest ih =>
    intro hs hlt st hst
    rw [List.foldl_cons]
    cases rest with
    | nil =>
      show scanStep t st x = if |x - t| ≤ 20 then some (x, |x - t|) else st
      by_cases h20 : |x - t| ≤ 20
      · rw [if_pos h20]
        apply scanStep_eq_of_improves
        rcases hst with rfl | ⟨b, bd, rfl, hbd⟩
        · exact h20
        · exact ⟨hbd x (List.mem_cons_self x []), h20⟩
      · rw [if_neg h20]
        apply scanStep_eq_of_not_improves
        rcases hst with rfl | ⟨b, bd, rfl, hbd⟩
        · exact h20
        · exact fun hh => h20 hh.2
    | cons y rest2 =>
      have hs' : (y :: rest2).Sorted (· < ·) := hs.of_cons
      have hxlt : ∀ z ∈ y :: rest2, x < z := fun z hz => (List.sorted_cons.mp hs).1 z hz
      have hlt' : ∀ z ∈ y :: rest2, z < t := fun z hz => hlt z (List.mem_cons_of_mem x hz)
      have hinv : scanStep t st x = none ∨
          ∃ b bd, scanStep t st x = some (b, bd) ∧ ∀ z ∈ y :: rest2, |z - t| < bd := by
        by_cases himp : scanImproves st (|x - t|)
        · rw [scanStep_eq_of_improves t st x himp]
          refine Or.inr ⟨x, |x - t|, rfl, ?_⟩
          intro z hz
          have h1 : x < t := hlt x (List.mem_cons_self x (y :: rest2))
          have h2 : z < t := hlt' z hz
          have h3 : x < z := hxlt z hz
          rw [abs_of_neg (by omega), abs_of_neg (by omega)]
          omega
        · rw [scanStep_eq_of_not_improves t st x himp]
          rcases hst with rfl | ⟨b, bd, rfl, hbd⟩
          · exact Or.inl rfl
          · exact Or.inr ⟨b, bd, rfl, fun z hz => hbd z (List.mem_cons_of_mem x hz)⟩
      rw [ih hs' hlt' (scanStep t st x) hinv, List.getLast?_cons_cons]
      obtain ⟨a, ha⟩ : ∃ a, (y :: rest2).getLast? = some a :=
        ⟨(y :: rest2).getLast (by simp), List.getLast?_eq_getLast _ (by simp)⟩
      rw [ha]
      show (if |a - t| ≤ 20 then some (a, |a - t|) else scanStep t st x) =
        (if |a - t| ≤ 20 then some (a, |a - t|) else st)
      have hamem : a ∈ y :: rest2 :=
        List.mem_of_mem_getLast? (by rw [ha]; exact Option.mem_some_iff.mpr rfl)
      by_cases h20 : |a - t| ≤ 20
      · rw [if_pos h20, if_pos h20]
      · rw [if_neg h20, if_neg h20]
        have h1 : x < t := hlt x (List.mem_cons_self x (y :: rest2))
        have h2 : a < t := hlt' a hamem
        have h3 : x < a := hxlt a hamem
        have hdist : |a - t| < |x - t| := by
          rw [abs_of_neg (by omega), abs_of_neg (by omega)]
          omega
        apply scanStep_eq_of_not_improves
        rcases hst with rfl | ⟨b, bd, rfl, hbd⟩
        · intro hh
          have hx20 : |x - t| ≤ 20 := hh
          exact h20 (by omega)
        · intro hh
          obtain ⟨_, hh2⟩ := hh
          exact h20 (by omega)

/-- Scanning an ascending run entirely above the target is decided by
its first element (distances only grow afterwards). -/
theorem scan_right (t : Int) : ∀ (xs : List Int), xs.Sorted (· < ·) → (∀ x ∈ xs, t < x) →
    ∀ st : Option (Int × Int),
      xs.foldl (scanStep t) st =
        (match xs with
         | [] => st
         | x :: _ => scanStep t st x) := by
  intro xs
  cases xs with
  | nil => intro _ _ st; rfl
  | cons x rest =>
    intro hs hgt st
    rw [List.foldl_cons]
    show rest.foldl (scanStep t) (scanStep t st x) = scanStep t st x
    apply scan_fold_const
    intro y hy
    have hxy : x < y := (List.sorted_cons.mp hs).1 y hy
    have h1 : t < x := hgt x (List.mem_cons_self x rest)
    have h2 : t < y := hgt y (List.mem_cons_of_mem x hy)
    have hdxy : |x - t| < |y - t| := by
      rw [abs_of_pos (by omega), abs_of_pos (by omega)]
      omega
    by_cases himp : scanImproves st (|x - t|)
    · rw [scanStep_eq_of_improves t st x himp]
      intro hh
      obtain ⟨hh1, _⟩ := hh
      omega
    · rw [scanStep_eq_of_not_improves t st x himp]
      cases st with
      | none =>
        intro hh
        have hy20 : |y - t| ≤ 20 := hh
        exact himp (show |x - t| ≤ 20 by omega)
      | some p =>
        obtain ⟨b, bd⟩ := p
        intro hh
        obtain ⟨hh1, hh2⟩ := hh
        exact himp ⟨by omega, by omega⟩

/-- In range, one neighbor check is one scan step. -/
theorem considerIdx_eq_scanStep (l : List Int) (t : Int) (st : Option (Int × Int))
    (k : Int) (h0 : 0 ≤ k) (hk : k < (l.length : Int)) :
    considerIdx l t 20 st k = scanStep t st (l.getD k.toNat 0) := by
  unfold considerIdx scanStep
  rw [if_pos ⟨h0, hk⟩]

/-- Out of range, a neighbor check is the identity. -/
theorem considerIdx_oob (l : List Int) (t maxDist : Int) (st : Option (Int × Int))
    (k : Int) (h : ¬ (0 ≤ k ∧ k < (l.length : Int))) :
    considerIdx l t maxDist st k = st := by
  unfold considerIdx
  rw [if_neg h]

/-- Conversion: `getD` at an in-range index is the element. -/
theorem getD_eq_elem {l : List Int} {i : Nat} (h : i < l.length) : l.getD i 0 = l[i] := by
  rw [List.getD_eq_getElem?_getD, List.getElem?_eq_getElem h]
  rfl

/-- Conversion of `getD` through `take`. -/
theorem take_getD {l : List Int} {k i : Nat} (hik : i < k) :
    (l.take k).getD i 0 = l.getD i 0 := by
  simp [List.getD_eq_getElem?_getD, List.getElem?_take_of_lt hik]

/-- Conversion of `getD` through `drop`. -/
theorem drop_getD (l : List Int) (k i : Nat) :
    (l.drop k).getD i 0 = l.getD (k + i) 0 := by
  simp [List.getD_eq_getElem?_getD, List.getElem?_drop]

/-- C10: on every sorted, duplicate-free pool the binary-search
`findClosest` with tolerance 20 computes exactly what the previous
revision's linear scan computed — including membership short-circuit
and the tie toward the smaller line number. -/
theorem findClosest_eq_oldPoolSnap (l : List Int) (t : Int) (hs : l.Sorted (· < ·)) :
    findClosest l t 20 = oldPoolSnap l t := by
  by_cases hmem : t ∈ l
  · rw [findClosest_of_mem l t 20 hs hmem]
    unfold oldPoolSnap
    rw [if_pos hmem]
  · unfold oldPoolSnap
    rw [if_neg hmem,
      List.Sorted.insertionSort_eq (List.Pairwise.imp (fun hh => le_of_lt hh) hs)]
    by_cases hnil : l.length = 0
    · have hleq : l = [] := List.length_eq_zero.mp hnil
      subst hleq
      rfl
    · obtain ⟨k, hres, hklen, hkleft, hkright⟩ :=
        findClosestGo_not_mem l t 20 hs hmem l.length 0 ((l.length : Int) - 1)
          (le_refl 0) (by omega) (by omega) (by omega)
          (fun i hi => absurd hi (by omega))
          (fun i hi hil => absurd hil (by omega))
      unfold findClosest
      rw [if_neg hnil, hres]
      conv_rhs => rw [← List.take_append_drop k l, List.foldl_append]
      have htksorted : (l.take k).Sorted (· < ·) := hs.sublist (List.take_sublist k l)
      have htklt : ∀ z ∈ l.take k, z < t := by
        intro z hz
        obtain ⟨j, hj, hjz⟩ := List.mem_iff_getElem.mp hz
        have hjk : j < k := by
          simp only [List.length_take] at hj
          omega
        have hjl : j < l.length := by
          simp only [List.length_take] at hj
          omega
        have h1 : (l.take k).getD j 0 = l.getD j 0 := take_getD hjk
        have h2 : (l.take k).getD j 0 = (l.take k)[j] := getD_eq_elem hj
        rw [← hjz, ← h2, h1]
        exact hkleft j hjk
      have hdrsorted : (l.drop k).Sorted (· < ·) := hs.sublist (List.drop_sublist k l)
      have hdrgt : ∀ z ∈ l.drop k, t < z := by
        intro z hz
        obtain ⟨j, hj, hjz⟩ := List.mem_iff_getElem.mp hz
        have hjl : k + j < l.length := by
          simp only [List.length_drop] at hj
          omega
        have h1 : (l.drop k).getD j 0 = l.getD (k + j) 0 := drop_getD l k j
        have h2 : (l.drop k).getD j 0 = (l.drop k)[j] := getD_eq_elem hj
        rw [← hjz, ← h2, h1]
        exact hkright (k + j) (Nat.le_add_right k j) hjl
      rw [scan_left t (l.take k) htksorted htklt none (Or.inl rfl)]
      rw [scan_right t (l.drop k) hdrsorted hdrgt _]
      unfold neighborBest
      have hleftEq : considerIdx l t 20 none ((k : Int) - 1) =
          (match (l.take k).getLast? with
           | none => none
           | some a => if |a - t| ≤ 20 then some (a, |a - t|) else none) := by
        by_cases hk0 : k = 0
        · subst hk0
          rw [considerIdx_oob _ _ _ _ _ (by omega)]
          rfl
        · rw [considerIdx_eq_scanStep l t none ((k : Int) - 1) (by omega) (by omega)]
          have htn : ((k : Int) - 1).toNat = k - 1 := by omega
          rw [htn]
          have hlast : (l.take k).getLast? = some (l.getD (k - 1) 0) := by
            rw [List.getLast?_eq_getElem?, List.length_take, Nat.min_eq_left hklen,
              List.getElem?_take_of_lt (by omega),
              List.getElem?_eq_getElem (show k - 1 < l.length by omega),
              getD_eq_elem (show k - 1 < l.length by omega)]
          rw [hlast]
          rfl
      have hrightEq : ∀ st : Option (Int × Int), considerIdx l t 20 st (k : Int) =
          (match l.drop k with
           | [] => st
           | x :: _ => scanStep t st x) := by
        intro st
        by_cases hkl : k < l.length
        · rw [considerIdx_eq_scanStep l t st (k : Int) (by omega) (by omega)]
          have htn : ((k : Int)).toNat = k := by omega
          rw [htn, List.drop_eq_getElem_cons hkl, getD_eq_elem hkl]
        · rw [considerIdx_oob _ _ _ _ _ (by omega)]
          rw [List.drop_eq_nil_of_le (not_lt.mp hkl)]
      rw [hleftEq, hrightEq]

/-- Witness for `findClosest_eq_oldPoolSnap`: a sorted pool with a tie
(distance 10 to both 10 and 30 from 20). -/
theorem findClosest_eq_oldPoolSnap_witness :
    ([10, 30] : List Int).Sorted (· < ·) ∧
    findClosest [10, 30] 20 20 = oldPoolSnap [10, 30] 20 :=
  ⟨by decide, findClosest_eq_oldPoolSnap [10, 30] 20 (by decide)⟩
